import Mathlib

/-!
# Inventory service (`main.go`): shallow embedding and verified properties

The service keeps two package-level collections, the map `inventory`
(index by id) and the slice `inventoryList` (insertion order).  The handlers
of `POST /item`, `GET /item`, `GET /item/:id`, `DELETE /item/:id`,
`PATCH /item/:id` and `GET /item/csv` are embedded as pure functions from
the store and the decoded request to the new store and a response, and
`customValidationError` as a function on the binding error.

Conventions of the embedding:

* Go `int` is the 64-bit two's-complement integer: values are `Int`, and the
  two products of the pagination handler are wrapped by `wrapInt`.
* `float64` is carried as its IEEE-754 bit pattern; the handlers only copy it.
* `map[int]Item` is a finite map with unique keys (`AList`); `len` of the map
  is the number of its entries.
* A request body is the `Item` obtained by decoding the JSON object (absent
  fields are the zero value), before the `binding` tags are checked.
* A run-time panic (slice bounds out of range) aborts the handler before any
  assignment; it is the response `Response.panicked`.
* The `%v` text of the validation errors and the `%f` text of a `float64` are
  parameters (`showErrs`, `showFloat`).
-/

namespace Inventory

/-! ## Data model -/

/-- A `float64`, as its IEEE-754 bit pattern. -/
structure Float64 where
  bits : Nat
deriving DecidableEq, Repr

/-- The numeric value zero: `+0.0` or `-0.0`. -/
def Float64.isZero (f : Float64) : Bool :=
  f.bits % 2 ^ 63 == 0

/-- Item is a model represents the inventory item. -/
structure Item where
  ID : Int
  Name : String
  Quantity : Int
  UnitPrice : Float64
deriving DecidableEq, Repr

/-- Pagination for fetching the items in a pagination way using query param. -/
structure Pagination where
  Page : Int
  Size : Int
deriving DecidableEq, Repr

/-- The type of the map `inventory`: `map[int]Item`. -/
abbrev ItemMap := AList (fun _ : Int => Item)

/-- The two package-level variables of `main.go`. -/
structure Store where
  inventory : ItemMap
  inventoryList : List Item
deriving DecidableEq

/-- The store at start-up: `make(map[int]Item)` and `make([]Item, 0)`. -/
def Store.empty : Store :=
  { inventory := ∅, inventoryList := [] }

/-- One entry of `validator.ValidationErrors`: the struct field and the tag that failed. -/
structure FieldError where
  field : String
  tag : String
deriving DecidableEq, Repr

/-- What a handler writes to the client. -/
inductive Response where
  | created (id : Int)
  | okItems (items : List Item)
  | okItem (item : Item)
  | deleted
  | updated
  | badRequest (errs : List FieldError)
  | notFound
  | rangeExceeded
  | panicked
deriving DecidableEq

/-! ## Machine integers -/

/-- Wrap-around of a 64-bit signed `int`. -/
def wrapInt (x : Int) : Int :=
  (x + 2 ^ 63) % 2 ^ 64 - 2 ^ 63

/-! ## Binding (`binding` struct tags) -/

/-- The `alpha` tag: the value matches `^[a-zA-Z]+$`. -/
def isAlpha (s : String) : Bool :=
  !s.data.isEmpty && s.data.all fun c => ('a' ≤ c && c ≤ 'z') || ('A' ≤ c && c ≤ 'Z')

/-- Field errors of `Name`: tags `required,alpha`, the first failing tag is reported. -/
def validateName (n : String) : List FieldError :=
  if n.data.isEmpty then [⟨"Name", "required"⟩]
  else if isAlpha n then [] else [⟨"Name", "alpha"⟩]

/-- Validation of a decoded `Item` (`ShouldBindJSON`): fields in declaration order. -/
def validateItem (item : Item) : List FieldError :=
  validateName item.Name
    ++ (if item.Quantity = 0 then [⟨"Quantity", "required"⟩] else [])
    ++ (if item.UnitPrice.isZero then [⟨"UnitPrice", "required"⟩] else [])

/-- Validation of the query parameters (`ShouldBindQuery`): `min=0` on both. -/
def validatePagination (p : Pagination) : List FieldError :=
  (if p.Page < 0 then [⟨"Page", "min"⟩] else [])
    ++ (if p.Size < 0 then [⟨"Size", "min"⟩] else [])

/-- Validation of the path parameter (`ShouldBindUri`): `required` on an `int`. -/
def validateID (id : Int) : List FieldError :=
  if id = 0 then [⟨"ID", "required"⟩] else []

/-! ## Slices -/

/-- Slice expression `s[lo:hi]`: `none` is the bounds panic.  The upper bound is
checked against the length; the handler only slices with `hi ≤ len(s)`. -/
def slice (s : List Item) (lo hi : Int) : Option (List Item) :=
  if 0 ≤ lo ∧ lo ≤ hi ∧ hi ≤ (s.length : Int) then
    some ((s.take hi.toNat).drop lo.toNat)
  else none

/-- Slice expression `s[lo:]`: `none` is the bounds panic. -/
def sliceFrom (s : List Item) (lo : Int) : Option (List Item) :=
  if 0 ≤ lo ∧ lo ≤ (s.length : Int) then some (s.drop lo.toNat) else none

/-- The loop of the DELETE handler from index `i` on: `pos` becomes the index
of every entry whose ID matches, so the last match wins. -/
def scanPosition (id : Int) : List Item → Nat → Nat → Nat
  | [], _, pos => pos
  | invItem :: rest, i, pos =>
      scanPosition id rest (i + 1) (if invItem.ID = id then i else pos)

/-- Value of `itemPosition` after the loop of the DELETE handler (initially 0). -/
def itemPosition (l : List Item) (id : Int) : Nat :=
  scanPosition id l 0 0

/-- The loop of the PATCH handler: the first entry whose ID matches is
overwritten, then `break`. -/
def replaceFirst (id : Int) (item : Item) : List Item → List Item
  | [] => []
  | invItem :: rest =>
      if invItem.ID = id then item :: rest else invItem :: replaceFirst id item rest

/-! ## Handlers -/

/-- Handler of `POST /item`. -/
def postItem (s : Store) (body : Item) : Store × Response :=
  match validateItem body with
  | [] =>
      let id : Int := (s.inventory.entries.length : Int) + 1
      let item : Item := { body with ID := id }
      ({ inventory := s.inventory.insert id item,
         inventoryList := s.inventoryList ++ [item] }, .created id)
  | e :: es => (s, .badRequest (e :: es))

/-- Body of the `GET /item` handler after the query is bound: the whole slice
when both parameters are zero, else the window `[start, end)`.  `arith` is
applied to the two products: `wrapInt` for Go `int`, `id` for unbounded
integers. -/
def listItems (arith : Int → Int) (l : List Item) (pagination : Pagination) : Response :=
  if pagination.Page = 0 ∧ pagination.Size = 0 then .okItems l
  else
    let size := if pagination.Size = 0 then 1 else pagination.Size
    let page := if pagination.Page = 0 then 1 else pagination.Page
    let start := arith ((page - 1) * size)
    let end_ := arith (page * size)
    if ¬ ((l.length : Int) > start) then .rangeExceeded
    else if (l.length : Int) ≥ end_ then
      match slice l start end_ with
      | some items => .okItems items
      | none => .panicked
    else
      match sliceFrom l start with
      | some items => .okItems items
      | none => .panicked

/-- Handler of `GET /item`. -/
def getItems (s : Store) (pagination : Pagination) : Store × Response :=
  match validatePagination pagination with
  | [] => (s, listItems wrapInt s.inventoryList pagination)
  | e :: es => (s, .badRequest (e :: es))

/-- Handler of `GET /item/:id`. -/
def getItem (s : Store) (id : Int) : Store × Response :=
  match validateID id with
  | [] =>
      match s.inventory.lookup id with
      | none => (s, .notFound)
      | some item => (s, .okItem item)
  | e :: es => (s, .badRequest (e :: es))

/-- Handler of `DELETE /item/:id`. -/
def deleteItem (s : Store) (id : Int) : Store × Response :=
  match validateID id with
  | [] =>
      match s.inventory.lookup id with
      | none => (s, .notFound)
      | some item =>
          let pos := itemPosition s.inventoryList id
          if pos + 1 ≤ s.inventoryList.length then
            ({ inventory := s.inventory.erase item.ID,
               inventoryList := s.inventoryList.take pos ++ s.inventoryList.drop (pos + 1) },
             .deleted)
          else (s, .panicked)
  | e :: es => (s, .badRequest (e :: es))

/-- Handler of `PATCH /item/:id`. -/
def patchItem (s : Store) (id : Int) (body : Item) : Store × Response :=
  match validateID id with
  | [] =>
      match validateItem body with
      | [] =>
          match s.inventory.lookup id with
          | none => (s, .notFound)
          | some _ =>
              let item : Item := { body with ID := id }
              ({ inventory := s.inventory.insert id item,
                 inventoryList := replaceFirst id item s.inventoryList }, .updated)
      | e :: es => (s, .badRequest (e :: es))
  | e :: es => (s, .badRequest (e :: es))

/-! ## Request bodies before decoding -/

/-- The JSON object of a request body, field by field: `none` is a field that
is absent from the object. -/
structure Payload where
  ID : Option Int
  name : Option String
  quantity : Option Int
  unitPrice : Option Float64
deriving DecidableEq, Repr

/-- Decoding into `var item Item` (`ShouldBindJSON`, before the tags are
checked): a field absent from the object keeps the zero value. -/
def decodeItem (p : Payload) : Item :=
  { ID := p.ID.getD 0
    Name := p.name.getD ""
    Quantity := p.quantity.getD 0
    UnitPrice := p.unitPrice.getD ⟨0⟩ }

/-! ## Validation errors made readable -/

/-- The type `map[string]string`. -/
abbrev StringMap := AList (fun _ : String => String)

/-- The errors `customValidationError` tells apart in its type switch:
`validator.ValidationErrors`, `*json.UnmarshalTypeError` (its `Field` and
`Value`), and any other error (its `%v` text). -/
inductive BindError where
  | validation (errs : List FieldError)
  | unmarshalType (field value : String)
  | other (text : String)
deriving DecidableEq

/-- customErrors is a error map to map valid error message for validate field bindings. -/
def customErrors : List (String × String) :=
  [ ("Name.required", "is required"),
    ("Name.alpha", "should only contain alphabets"),
    ("Quantity.required", "is required"),
    ("UnitPrice.required", "is required"),
    ("Page.min", "should not be less than 1"),
    ("Size.min", "should not be less than 1"),
    ("ID.required", "is required") ]

/-- The body of the loop of `customValidationError` for one field error `e` of
the validation errors `err`: a fresh map with the one key `e.Field()`.
`showErrs` is the `%v` text of the whole `validator.ValidationErrors`. -/
def errorMapOf (showErrs : List FieldError → String) (err : List FieldError)
    (e : FieldError) : StringMap :=
  let key := e.field ++ "." ++ e.tag
  match customErrors.lookup key with
  | some v => (∅ : StringMap).insert e.field v
  | none => (∅ : StringMap).insert e.field ("custom message is not available: " ++ showErrs err)

/-- customValidationError converts bindings validation error to readable error. -/
def customValidationError (showErrs : List FieldError → String) :
    BindError → List StringMap
  | .validation err =>
      err.foldl (fun errs e => errs ++ [errorMapOf showErrs err e]) []
  | .unmarshalType field value =>
      [(∅ : StringMap).insert field (field ++ " can not be a " ++ value)]
  | .other text =>
      [(∅ : StringMap).insert "unknown" ("unsupported custom error for: " ++ text)]

/-! ## CSV export -/

/-- The header line of the export. -/
def csvHeader : String := "id,name,quantity,unit price\n"

/-- The line of one Item, `fmt.Sprintf("%d,%s,%d,%f\n", ...)`; `showFloat` is the
`%f` rendering of a `float64`. -/
def csvLine (showFloat : Float64 → String) (item : Item) : String :=
  toString item.ID ++ "," ++ item.Name ++ "," ++ toString item.Quantity ++ "," ++
    showFloat item.UnitPrice ++ "\n"

/-- Handler of `GET /item/csv`: the store and the body of the `text/csv` response. -/
def getCsv (showFloat : Float64 → String) (s : Store) : Store × String :=
  (s, s.inventoryList.foldl (fun content item => content ++ csvLine showFloat item) csvHeader)

/-! ## Runs -/

/-- A mutating request. -/
inductive Op where
  | create (body : Item)
  | update (id : Int) (body : Item)
  | delete (id : Int)
deriving DecidableEq

/-- Serve one mutating request. -/
def step (s : Store) : Op → Store × Response
  | .create body => postItem s body
  | .update id body => patchItem s id body
  | .delete id => deleteItem s id

/-- The store after serving the requests in order. -/
def run (s : Store) (ops : List Op) : Store :=
  ops.foldl (fun st op => (step st op).1) s

/-- The responses of serving the requests in order. -/
def responses (s : Store) : List Op → List Response
  | [] => []
  | op :: ops => (step s op).2 :: responses (step s op).1 ops

/-- The ids handed out by the successful Creates of a run, in order. -/
def createdIds : List Response → List Int
  | [] => []
  | .created id :: rs => id :: createdIds rs
  | _ :: rs => createdIds rs

/-- A store is reachable when some run from the empty store ends in it. -/
def Reachable (s : Store) : Prop :=
  ∃ ops : List Op, run Store.empty ops = s

/-! ## Properties named by the specification -/

/-- The two views agree: every Item of the sequence is the value the index
holds at that Item's id, and every index entry occurs exactly once in the
sequence. -/
def InSync (s : Store) : Prop :=
  (∀ item ∈ s.inventoryList, s.inventory.lookup item.ID = some item) ∧
  (∀ e ∈ s.inventory.entries, s.inventoryList.count e.2 = 1)

instance (s : Store) : Decidable (InSync s) := by
  unfold InSync
  infer_instance

/-- Every index entry is stored under its own id. -/
def KeysMatch (s : Store) : Prop :=
  ∀ k item, s.inventory.lookup k = some item → item.ID = k

/-- The reference definition of List, in the words of the specification, over
unbounded integers. -/
def listReference (l : List Item) (page size : Int) : Response :=
  if page = 0 ∧ size = 0 then .okItems l
  else
    let page' := if page ≠ 0 then page else 1
    let size' := if size ≠ 0 then size else 1
    let start := (page' - 1) * size'
    let end_ := page' * size'
    if start ≥ (l.length : Int) then .rangeExceeded
    else .okItems ((l.take (min end_ (l.length : Int)).toNat).drop start.toNat)

/-- The Items of a successful List response (none for any other response). -/
def pageItems : Response → List Item
  | .okItems items => items
  | _ => []

/-- Every key of the index is at least 1. -/
def KeysPositive (s : Store) : Prop :=
  ∀ k, k ∈ s.inventory → 1 ≤ k

/-- Every key of the index is the ID of some entry of the sequence. -/
def KeysListed (s : Store) : Prop :=
  ∀ k, k ∈ s.inventory → ∃ item ∈ s.inventoryList, item.ID = k

/-- The ids `1, 2, ..., n` in this order. -/
def idsUpTo (n : Nat) : List Int :=
  (List.range n).map (fun i : Nat => (i : Int) + 1)

/-- The store holds `n` Items under the ids `1, ..., n`: the IDs of the sequence
are `1, ..., n` in this order, the index has `n` entries, its keys lie in `1..n`,
and it holds every entry of the sequence at that entry's ID. -/
def Dense (s : Store) : Prop :=
  s.inventoryList.map (fun item => item.ID) = idsUpTo s.inventoryList.length ∧
  s.inventory.entries.length = s.inventoryList.length ∧
  (∀ item ∈ s.inventoryList, s.inventory.lookup item.ID = some item) ∧
  (∀ k, k ∈ s.inventory → 1 ≤ k ∧ k ≤ (s.inventoryList.length : Int))

/-- The request is a Create. -/
def Op.isCreate : Op → Bool
  | .create _ => true
  | _ => false

/-- The request is a Delete. -/
def Op.isDelete : Op → Bool
  | .delete _ => true
  | _ => false

/-- The store after one Create per payload, from the empty store. -/
def afterCreates (ps : List Item) : Store :=
  run Store.empty (ps.map Op.create)

/-! ## Sample requests -/

/-- A valid payload. -/
def widget : Item := ⟨0, "Widget", 5, ⟨4621813499262897029⟩⟩

/-- A second valid payload. -/
def gadget : Item := ⟨0, "Gadget", 7, ⟨4612811918334230528⟩⟩

/-- A third valid payload. -/
def gizmo : Item := ⟨0, "Gizmo", 3, ⟨4607182418800017408⟩⟩

/-! ## Lemmas on binding and the index -/

theorem validateID_eq_nil (id : Int) : validateID id = [] ↔ id ≠ 0 := by
  unfold validateID
  by_cases h : id = 0 <;> simp [h]

theorem validateID_zero : validateID 0 = [⟨"ID", "required"⟩] := rfl

theorem keysMatch_empty : KeysMatch Store.empty := by
  intro k item h
  simp [Store.empty] at h

theorem keysMatch_insert (s : Store) (id : Int) (body : Item) (l : List Item)
    (hs : KeysMatch s) :
    KeysMatch { inventory := s.inventory.insert id { body with ID := id }, inventoryList := l } := by
  intro k item h
  by_cases hk : k = id
  · subst hk
    simp only [AList.lookup_insert, Option.some.injEq] at h
    rw [← h]
  · simp only [AList.lookup_insert_ne hk] at h
    exact hs k item h

theorem keysMatch_erase (s : Store) (id : Int) (l : List Item) (hs : KeysMatch s) :
    KeysMatch { inventory := s.inventory.erase id, inventoryList := l } := by
  intro k item h
  by_cases hk : k = id
  · subst hk
    simp [AList.lookup_erase] at h
  · simp only [AList.lookup_erase_ne hk] at h
    exact hs k item h

theorem keysMatch_postItem (s : Store) (body : Item) (hs : KeysMatch s) :
    KeysMatch (postItem s body).1 := by
  unfold postItem
  split
  · exact keysMatch_insert s _ body _ hs
  · exact hs

theorem keysMatch_patchItem (s : Store) (id : Int) (body : Item) (hs : KeysMatch s) :
    KeysMatch (patchItem s id body).1 := by
  unfold patchItem
  split
  · split
    · split
      · exact hs
      · exact keysMatch_insert s id body _ hs
    · exact hs
  · exact hs

theorem keysMatch_deleteItem (s : Store) (id : Int) (hs : KeysMatch s) :
    KeysMatch (deleteItem s id).1 := by
  unfold deleteItem
  split
  · split
    · exact hs
    · dsimp only
      split
      · exact keysMatch_erase s _ _ hs
      · exact hs
  · exact hs

theorem keysMatch_step (s : Store) (op : Op) (hs : KeysMatch s) : KeysMatch (step s op).1 := by
  cases op with
  | create body => exact keysMatch_postItem s body hs
  | update id body => exact keysMatch_patchItem s id body hs
  | delete id => exact keysMatch_deleteItem s id hs

theorem keysMatch_run (ops : List Op) : ∀ s : Store, KeysMatch s → KeysMatch (run s ops) := by
  induction ops with
  | nil => intro s hs; exact hs
  | cons op ops ih =>
      intro s hs
      exact ih (step s op).1 (keysMatch_step s op hs)

theorem keysMatch_of_reachable (s : Store) (hs : Reachable s) : KeysMatch s := by
  obtain ⟨ops, rfl⟩ := hs
  exact keysMatch_run ops Store.empty keysMatch_empty

/-! ## Handlers on bound requests -/

theorem postItem_of_valid (s : Store) (p : Item) (hv : validateItem p = []) :
    postItem s p =
      ({ inventory := s.inventory.insert ((s.inventory.entries.length : Int) + 1)
            { p with ID := (s.inventory.entries.length : Int) + 1 },
         inventoryList :=
            s.inventoryList ++ [{ p with ID := (s.inventory.entries.length : Int) + 1 }] },
       .created ((s.inventory.entries.length : Int) + 1)) := by
  unfold postItem
  rw [hv]

theorem getItem_of_ne_zero (s : Store) (id : Int) (hid : id ≠ 0) :
    getItem s id =
      match s.inventory.lookup id with
      | none => (s, .notFound)
      | some item => (s, .okItem item) := by
  unfold getItem
  rw [(validateID_eq_nil id).mpr hid]

theorem getItem_zero (s : Store) : getItem s 0 = (s, .badRequest [⟨"ID", "required"⟩]) := by
  unfold getItem
  rw [validateID_zero]

theorem patchItem_of_valid (s : Store) (id : Int) (r : Item) (hid : id ≠ 0)
    (hv : validateItem r = []) :
    patchItem s id r =
      match s.inventory.lookup id with
      | none => (s, .notFound)
      | some _ =>
          ({ inventory := s.inventory.insert id { r with ID := id },
             inventoryList := replaceFirst id { r with ID := id } s.inventoryList },
           .updated) := by
  unfold patchItem
  rw [(validateID_eq_nil id).mpr hid, hv]

theorem patchItem_zero (s : Store) (r : Item) :
    patchItem s 0 r = (s, .badRequest [⟨"ID", "required"⟩]) := by
  unfold patchItem
  rw [validateID_zero]

theorem deleteItem_of_ne_zero (s : Store) (id : Int) (hid : id ≠ 0) :
    deleteItem s id =
      match s.inventory.lookup id with
      | none => (s, .notFound)
      | some item =>
          if itemPosition s.inventoryList id + 1 ≤ s.inventoryList.length then
            ({ inventory := s.inventory.erase item.ID,
               inventoryList := s.inventoryList.take (itemPosition s.inventoryList id) ++
                 s.inventoryList.drop (itemPosition s.inventoryList id + 1) }, .deleted)
          else (s, .panicked) := by
  unfold deleteItem
  rw [(validateID_eq_nil id).mpr hid]

theorem deleteItem_zero (s : Store) :
    deleteItem s 0 = (s, .badRequest [⟨"ID", "required"⟩]) := by
  unfold deleteItem
  rw [validateID_zero]

theorem lookup_eq_none_iff (s : Store) (id : Int) :
    s.inventory.lookup id = none ↔ id ∉ s.inventory :=
  AList.lookup_eq_none

/-! ## The two views and the ids of a run -/

/-- Claim C1, evaluated on the code: after two Creates, the Delete of id 1 and a
third Create, the store (reachable from the empty one) is not in sync.  The third
Create is given id 2 again, so the sequence still holds the second item under
ID 2 while the index at 2 holds the third. -/
theorem sync_broken_by_id_reuse :
    Reachable (run Store.empty [.create widget, .create gadget, .delete 1, .create gizmo]) ∧
    (run Store.empty [.create widget, .create gadget, .delete 1, .create gizmo]).inventoryList
      = [{ gadget with ID := 2 }, { gizmo with ID := 2 }] ∧
    (run Store.empty [.create widget, .create gadget, .delete 1, .create gizmo]).inventory.lookup 2
      = some { gizmo with ID := 2 } ∧
    ¬ InSync (run Store.empty [.create widget, .create gadget, .delete 1, .create gizmo]) :=
  ⟨⟨_, rfl⟩, by decide, by decide, by decide⟩

/-- Claim C2, evaluated on the code: in the run Create, Create, Delete 1, Create
the three Creates return the ids 1, 2 and 2: the id 2 is handed out twice. -/
theorem create_reuses_id :
    createdIds (responses Store.empty
        [.create widget, .create gadget, .delete 1, .create gizmo]) = [1, 2, 2] ∧
    ¬ (createdIds (responses Store.empty
        [.create widget, .create gadget, .delete 1, .create gizmo])).Nodup := by
  decide

/-- Claim C3: in a reachable store, when Delete of `id` succeeds, the key erased
from the index is `id` itself and a GetByID of `id` on the resulting store
answers NotFound. -/
theorem delete_then_get_notFound (s : Store) (id : Int) (hs : Reachable s)
    (hd : (deleteItem s id).2 = .deleted) :
    (getItem (deleteItem s id).1 id).2 = .notFound ∧
      (deleteItem s id).1.inventory = s.inventory.erase id := by
  have hk := keysMatch_of_reachable s hs
  have hid : id ≠ 0 := by
    rintro rfl
    rw [deleteItem_zero] at hd
    simp at hd
  rw [deleteItem_of_ne_zero s id hid] at hd ⊢
  cases hl : s.inventory.lookup id with
  | none =>
      rw [hl] at hd
      simp at hd
  | some item =>
      rw [hl] at hd
      have hitem : item.ID = id := hk id item hl
      by_cases hpos : itemPosition s.inventoryList id + 1 ≤ s.inventoryList.length
      · simp only [hpos, if_true, hitem]
        rw [getItem_of_ne_zero _ id hid]
        simp only [AList.lookup_erase, and_self]
      · simp [hpos] at hd

/-- Witness of `delete_then_get_notFound`: deleting id 1 after two Creates. -/
theorem delete_then_get_notFound_witness :
    Reachable (run Store.empty [.create widget, .create gadget]) ∧
    (deleteItem (run Store.empty [.create widget, .create gadget]) 1).2 = .deleted ∧
    ((getItem (deleteItem (run Store.empty [.create widget, .create gadget]) 1).1 1).2
        = .notFound ∧
      (deleteItem (run Store.empty [.create widget, .create gadget]) 1).1.inventory
        = (run Store.empty [.create widget, .create gadget]).inventory.erase 1) :=
  ⟨⟨_, rfl⟩, by decide, delete_then_get_notFound _ 1 ⟨_, rfl⟩ (by decide)⟩

/-! ## Pagination -/

/-- With unbounded integers, page `q + 1` of size `n ≥ 1` is the window of `n`
entries starting at `q * n`, and the request fails exactly when the window
starts at or past the end of the sequence. -/
theorem listItems_id_window (L : List Item) (q n : Nat) (hn : 1 ≤ n) :
    listItems id L ⟨((q + 1 : Nat) : Int), (n : Int)⟩ =
      if q * n < L.length then .okItems ((L.drop (q * n)).take n) else .rangeExceeded := by
  have hn0 : (n : Int) ≠ 0 := by omega
  have hp0 : ((q + 1 : Nat) : Int) ≠ 0 := by omega
  have hstart : (((q + 1 : Nat) : Int) - 1) * (n : Int) = ((q * n : Nat) : Int) := by
    push_cast; ring
  have hend : ((q + 1 : Nat) : Int) * (n : Int) = (((q + 1) * n : Nat) : Int) := by
    push_cast; ring
  unfold listItems
  simp only [hn0, hp0, and_self, if_false, id, hstart, hend]
  by_cases hlt : q * n < L.length
  · have h1 : ((L.length : Int) > ((q * n : Nat) : Int)) := by exact_mod_cast hlt
    simp only [h1, not_true_eq_false, if_false, hlt, if_true]
    by_cases hle : (q + 1) * n ≤ L.length
    · have h2 : (L.length : Int) ≥ (((q + 1) * n : Nat) : Int) := by exact_mod_cast hle
      have h3 : ((q * n : Nat) : Int) ≤ (((q + 1) * n : Nat) : Int) := by
        have : q * n ≤ (q + 1) * n := Nat.mul_le_mul_right n (Nat.le_succ q)
        exact_mod_cast this
      have h4 : (0 : Int) ≤ ((q * n : Nat) : Int) := Int.natCast_nonneg _
      have hsub : (q + 1) * n - q * n = n := by
        rw [Nat.succ_mul]; omega
      simp only [h2, if_true, slice, h3, h4, ge_iff_le.mp h2, and_self, Int.toNat_ofNat,
        List.drop_take, hsub]
    · have h2 : ¬ (L.length : Int) ≥ (((q + 1) * n : Nat) : Int) := by
        intro h; exact hle (by exact_mod_cast h)
      have h4 : (0 : Int) ≤ ((q * n : Nat) : Int) := Int.natCast_nonneg _
      have h5 : ((q * n : Nat) : Int) ≤ (L.length : Int) := by exact_mod_cast hlt.le
      have hlen : (L.drop (q * n)).length ≤ n := by
        rw [List.length_drop]
        rw [Nat.succ_mul] at hle
        omega
      simp only [h2, if_false, sliceFrom, h4, h5, and_self, if_true, Int.toNat_ofNat,
        List.take_of_length_le hlen]
  · have h1 : ¬ ((L.length : Int) > ((q * n : Nat) : Int)) := by
      intro h; exact hlt (by exact_mod_cast h)
    simp only [h1, not_false_eq_true, if_true, hlt, if_false]

theorem pageItems_listItems_id (L : List Item) (q n : Nat) (hn : 1 ≤ n) :
    pageItems (listItems id L ⟨((q + 1 : Nat) : Int), (n : Int)⟩) = (L.drop (q * n)).take n := by
  rw [listItems_id_window L q n hn]
  by_cases hlt : q * n < L.length
  · simp [hlt, pageItems]
  · simp [hlt, pageItems, List.drop_eq_nil_of_le (Nat.le_of_not_lt hlt)]

/-- The first `k` pages, one after the other, are the first `k * n` entries. -/
theorem pages_flatten_take (L : List Item) (n : Nat) (hn : 1 ≤ n) (k : Nat) :
    ((List.range k).map
      (fun i => pageItems (listItems id L ⟨((i + 1 : Nat) : Int), (n : Int)⟩))).flatten
      = L.take (k * n) := by
  induction k with
  | zero => simp
  | succ k ih =>
      rw [List.range_succ, List.map_append, List.flatten_append, ih, Nat.succ_mul,
        List.take_add]
      simp only [List.map_cons, List.map_nil, List.flatten_cons, List.flatten_nil,
        List.append_nil, pageItems_listItems_id L k n hn]

/-- Page `q + 1` starts inside a sequence of length `len` exactly when it is
one of the first `⌈len / n⌉` pages. -/
theorem ceil_div_spec (len q n : Nat) (hn : 1 ≤ n) :
    q * n < len ↔ q + 1 ≤ (len + n - 1) / n := by
  rw [Nat.le_div_iff_mul_le hn, Nat.succ_mul]
  omega

/-- The window arithmetic over unbounded integers (`listItems id`), for every
sequence `L` and size `n ≥ 1`: a successful page `p ≥ 1` has at most `n` Items;
page `p` succeeds exactly for `p` in `1..⌈|L| / n⌉`; and the pages
`1, ..., ⌈|L| / n⌉` one after the other are exactly `L`. -/
theorem list_pages_partition (L : List Item) (n : Nat) (hn : 1 ≤ n) :
    (∀ p : Nat, 1 ≤ p → ∀ items,
        listItems id L ⟨(p : Int), (n : Int)⟩ = .okItems items → items.length ≤ n) ∧
    (∀ p : Nat, 1 ≤ p →
        ((∃ items, listItems id L ⟨(p : Int), (n : Int)⟩ = .okItems items)
          ↔ p ≤ (L.length + n - 1) / n)) ∧
    ((List.range ((L.length + n - 1) / n)).map
      (fun i => pageItems (listItems id L ⟨((i + 1 : Nat) : Int), (n : Int)⟩))).flatten
      = L := by
  refine ⟨?_, ?_, ?_⟩
  · intro p hp items h
    obtain ⟨q, rfl⟩ : ∃ q, p = q + 1 := ⟨p - 1, by omega⟩
    rw [listItems_id_window L q n hn] at h
    split at h
    · simp only [Response.okItems.injEq] at h
      rw [← h]
      exact List.length_take_le _ _
    · simp at h
  · intro p hp
    obtain ⟨q, rfl⟩ : ∃ q, p = q + 1 := ⟨p - 1, by omega⟩
    rw [listItems_id_window L q n hn, ← ceil_div_spec L.length q n hn]
    constructor
    · rintro ⟨items, h⟩
      by_contra hlt
      simp [hlt] at h
    · intro hlt
      exact ⟨(L.drop (q * n)).take n, by simp [hlt]⟩
  · rw [pages_flatten_take L n hn]
    apply List.take_of_length_le
    have h := (ceil_div_spec L.length ((L.length + n - 1) / n) n hn).not.mpr (by omega)
    omega

/-! ## The list handler against its reference definition -/

theorem wrapInt_of_bounds (x : Int) (h0 : -(2 ^ 63) ≤ x) (h1 : x < 2 ^ 63) : wrapInt x = x := by
  unfold wrapInt
  rw [Int.emod_eq_of_lt (by omega) (by omega)]
  omega

/-- Over unbounded integers the handler body is the reference definition. -/
theorem listItems_id_eq_reference (L : List Item) (page size : Int)
    (hp : 0 ≤ page) (hs : 0 ≤ size) :
    listItems id L ⟨page, size⟩ = listReference L page size := by
  unfold listItems listReference
  by_cases h0 : page = 0 ∧ size = 0
  · simp [h0]
  · simp only [h0, if_false, id, ne_eq, ite_not]
    generalize hP : (if page = 0 then 1 else page) = P
    generalize hS : (if size = 0 then 1 else size) = S
    have hP1 : 1 ≤ P := by rw [← hP]; split <;> omega
    have hS1 : 1 ≤ S := by rw [← hS]; split <;> omega
    have hst : 0 ≤ (P - 1) * S := Int.mul_nonneg (by omega) (by omega)
    have hse : (P - 1) * S ≤ P * S := by nlinarith
    by_cases hr : (L.length : Int) > (P - 1) * S
    · have hr' : ¬ ((P - 1) * S ≥ (L.length : Int)) := by omega
      simp only [hr, not_true_eq_false, if_false, hr']
      by_cases he : (L.length : Int) ≥ P * S
      · simp only [he, if_true, slice, hst, hse, ge_iff_le.mp he, and_self, min_eq_left]
      · have hm : min (P * S) (L.length : Int) = L.length := min_eq_right (by omega)
        simp only [he, if_false, sliceFrom, hst, le_of_lt hr, and_self, if_true, hm,
          Int.toNat_ofNat, List.take_length]
    · have hr' : (P - 1) * S ≥ (L.length : Int) := by omega
      simp only [hr, not_false_eq_true, if_true, if_false, hr']

/-- While the product of the (defaulted) page and size fits a 64-bit `int`, the
wrapped products are the exact ones. -/
theorem listItems_wrapInt_eq_id (L : List Item) (page size : Int)
    (hp : 0 ≤ page) (hs : 0 ≤ size)
    (hb : (if page = 0 then 1 else page) * (if size = 0 then 1 else size) < 2 ^ 63) :
    listItems wrapInt L ⟨page, size⟩ = listItems id L ⟨page, size⟩ := by
  unfold listItems
  by_cases h0 : page = 0 ∧ size = 0
  · simp [h0]
  · simp only [h0, if_false, id]
    generalize hP : (if page = 0 then 1 else page) = P at hb ⊢
    generalize hS : (if size = 0 then 1 else size) = S at hb ⊢
    have hP1 : 1 ≤ P := by rw [← hP]; split <;> omega
    have hS1 : 1 ≤ S := by rw [← hS]; split <;> omega
    have hst : 0 ≤ (P - 1) * S := Int.mul_nonneg (by omega) (by omega)
    have hse : (P - 1) * S ≤ P * S := by nlinarith
    rw [wrapInt_of_bounds ((P - 1) * S) (by omega) (by omega),
      wrapInt_of_bounds (P * S) (by omega) (by omega)]

/-- The handler of `GET /item` answers as the reference definition whenever the
product of the (defaulted) page and size fits a 64-bit `int`. -/
theorem getItems_eq_reference_of_no_overflow (s : Store) (page size : Int)
    (hp : 0 ≤ page) (hs : 0 ≤ size)
    (hb : (if page = 0 then 1 else page) * (if size = 0 then 1 else size) < 2 ^ 63) :
    getItems s ⟨page, size⟩ = (s, listReference s.inventoryList page size) := by
  have hv : validatePagination ⟨page, size⟩ = [] := by
    unfold validatePagination
    simp [not_lt.mpr hp, not_lt.mpr hs]
  unfold getItems
  rw [hv, listItems_wrapInt_eq_id _ page size hp hs hb, listItems_id_eq_reference _ page size hp hs]

/-- Claim C5, evaluated on the code: on the store holding one Item, the request
`page=4294967297&size=4294967296` passes binding; `(page-1)*size = 2^64` wraps
to 0 and `page*size` wraps to `2^32`, so the handler answers with the whole
sequence, where the reference definition answers RangeExceeded; and the request
`page=4294967296&size=4294967296` wraps `start` to `-2^32` and panics on the
slice expression. -/
theorem list_overflow_diverges_from_reference :
    Reachable (run Store.empty [.create widget]) ∧
    validatePagination ⟨4294967297, 4294967296⟩ = [] ∧
    wrapInt ((4294967297 - 1) * 4294967296) = 0 ∧
    wrapInt (4294967297 * 4294967296) = 4294967296 ∧
    (getItems (run Store.empty [.create widget]) ⟨4294967297, 4294967296⟩).2
      = .okItems [{ widget with ID := 1 }] ∧
    listReference (run Store.empty [.create widget]).inventoryList 4294967297 4294967296
      = .rangeExceeded ∧
    wrapInt ((4294967296 - 1) * 4294967296) = -4294967296 ∧
    (getItems (run Store.empty [.create widget]) ⟨4294967296, 4294967296⟩).2 = .panicked ∧
    listReference (run Store.empty [.create widget]).inventoryList 4294967296 4294967296
      = .rangeExceeded :=
  ⟨⟨_, rfl⟩, by decide, by decide, by decide, by decide, by decide, by decide, by decide,
    by decide⟩

/-! ## Pagination on the handler -/

theorem getItems_of_nonneg (s : Store) (page size : Int) (hp : 0 ≤ page) (hs : 0 ≤ size) :
    getItems s ⟨page, size⟩ = (s, listItems wrapInt s.inventoryList ⟨page, size⟩) := by
  have hv : validatePagination ⟨page, size⟩ = [] := by
    unfold validatePagination
    simp [not_lt.mpr hp, not_lt.mpr hs]
  unfold getItems
  rw [hv]

theorem getItems_eq_listItems_id (s : Store) (p n : Nat) (hp : 1 ≤ p) (hn : 1 ≤ n)
    (hb : (p : Int) * (n : Int) < 2 ^ 63) :
    (getItems s ⟨(p : Int), (n : Int)⟩).2 = listItems id s.inventoryList ⟨(p : Int), (n : Int)⟩ := by
  rw [getItems_of_nonneg s p n (by omega) (by omega)]
  have hp0 : (p : Int) ≠ 0 := by omega
  have hn0 : (n : Int) ≠ 0 := by omega
  exact listItems_wrapInt_eq_id _ p n (by omega) (by omega) (by simpa [hp0, hn0] using hb)

/-- Adding a size below `2^63` to a product either keeps the wrapped sum exact
or wraps it once. -/
theorem wrapInt_add_cases (a n : Int) (h0 : 0 ≤ n) (h1 : n < 2 ^ 63) :
    wrapInt (a + n) = wrapInt a + n ∨ wrapInt (a + n) = wrapInt a + n - 2 ^ 64 := by
  unfold wrapInt
  omega

/-- A page the handler returns has at most `size` Items, whether or not the
products wrapped. -/
theorem listItems_wrapInt_length_le (L : List Item) (p n : Int) (hp : p ≠ 0) (hn : 1 ≤ n)
    (hn63 : n < 2 ^ 63) (items : List Item)
    (h : listItems wrapInt L ⟨p, n⟩ = .okItems items) : (items.length : Int) ≤ n := by
  have hn0 : n ≠ 0 := by omega
  unfold listItems at h
  simp only [hp, hn0, false_and, if_false] at h
  have hpn : p * n = (p - 1) * n + n := by ring
  rw [hpn] at h
  rcases wrapInt_add_cases ((p - 1) * n) n (by omega) hn63 with he | he
  all_goals
    rw [he] at h
    generalize wrapInt ((p - 1) * n) = st at h
    split at h
    · simp at h
    · split at h
      · split at h
        · rename_i found heq
          simp only [Response.okItems.injEq] at h
          subst h
          unfold slice at heq
          split at heq
          · simp only [Option.some.injEq] at heq
            rw [← heq, List.length_drop, List.length_take]
            omega
          · simp at heq
        · simp at h
      · split at h
        · rename_i found heq
          simp only [Response.okItems.injEq] at h
          subst h
          unfold sliceFrom at heq
          split at heq
          · simp only [Option.some.injEq] at heq
            rw [← heq, List.length_drop]
            omega
          · simp at heq
        · simp at h

/-- Claim C4 as stated fails on the handler: on the store holding one Item, with
size `n = 2^32` there is `⌈1 / n⌉ = 1` page, yet List(2^32 + 1, n) succeeds: the
products wrap, and the answer is the Item that page 1 already returned. -/
theorem pages_overflow_succeeds_out_of_range :
    Reachable (run Store.empty [.create widget]) ∧
    (getItems (run Store.empty [.create widget])
        ⟨((4294967297 : Nat) : Int), ((4294967296 : Nat) : Int)⟩).2
      = .okItems [{ widget with ID := 1 }] ∧
    (getItems (run Store.empty [.create widget])
        ⟨((1 : Nat) : Int), ((4294967296 : Nat) : Int)⟩).2
      = .okItems [{ widget with ID := 1 }] ∧
    ((run Store.empty [.create widget]).inventoryList.length + 4294967296 - 1) / 4294967296 = 1 ∧
    ¬ ((∃ items, (getItems (run Store.empty [.create widget])
          ⟨((4294967297 : Nat) : Int), ((4294967296 : Nat) : Int)⟩).2 = .okItems items)
        ↔ 4294967297 ≤
          ((run Store.empty [.create widget]).inventoryList.length + 4294967296 - 1)
            / 4294967296) := by
  refine ⟨⟨_, rfl⟩, by decide, by decide, by decide, ?_⟩
  intro h
  have h2 := h.mp ⟨[{ widget with ID := 1 }], by decide⟩
  revert h2
  decide

/-- Claim C4, amended to the 64-bit products of the handler: for every store, with
`L` its sequence, and every size `n` with `1 ≤ n < 2^63`: a successful
List(p, n) with `p ≥ 1` returns at most `n` Items; for every `p ≥ 1` with
`p * n < 2^63`, List(p, n) succeeds exactly when `p ≤ ⌈|L| / n⌉`; and when
`⌈|L| / n⌉ * n < 2^63`, the pages `1, ..., ⌈|L| / n⌉` one after the other are
exactly `L`. -/
theorem getItems_pages_partition (s : Store) (n : Nat) (hn : 1 ≤ n)
    (hn63 : (n : Int) < 2 ^ 63) :
    (∀ p : Nat, 1 ≤ p → ∀ items,
        (getItems s ⟨(p : Int), (n : Int)⟩).2 = .okItems items → items.length ≤ n) ∧
    (∀ p : Nat, 1 ≤ p → (p : Int) * (n : Int) < 2 ^ 63 →
        ((∃ items, (getItems s ⟨(p : Int), (n : Int)⟩).2 = .okItems items)
          ↔ p ≤ (s.inventoryList.length + n - 1) / n)) ∧
    ((((s.inventoryList.length + n - 1) / n : Nat) : Int) * (n : Int) < 2 ^ 63 →
      ((List.range ((s.inventoryList.length + n - 1) / n)).map
        (fun i => pageItems (getItems s ⟨((i + 1 : Nat) : Int), (n : Int)⟩).2)).flatten
        = s.inventoryList) := by
  refine ⟨?_, ?_, ?_⟩
  · intro p hp items h
    rw [getItems_of_nonneg s p n (by omega) (by omega)] at h
    have := listItems_wrapInt_length_le s.inventoryList p n (by omega) (by omega) hn63 items h
    exact_mod_cast this
  · intro p hp hb
    rw [getItems_eq_listItems_id s p n hp hn hb]
    exact (list_pages_partition s.inventoryList n hn).2.1 p hp
  · intro hb
    have hcongr : (List.range ((s.inventoryList.length + n - 1) / n)).map
        (fun i => pageItems (getItems s ⟨((i + 1 : Nat) : Int), (n : Int)⟩).2)
        = (List.range ((s.inventoryList.length + n - 1) / n)).map
        (fun i => pageItems (listItems id s.inventoryList ⟨((i + 1 : Nat) : Int), (n : Int)⟩)) := by
      apply List.map_congr_left
      intro i hi
      rw [List.mem_range] at hi
      have hle : ((i + 1 : Nat) : Int) * (n : Int)
          ≤ (((s.inventoryList.length + n - 1) / n : Nat) : Int) * (n : Int) := by
        apply Int.mul_le_mul_of_nonneg_right _ (by omega)
        exact_mod_cast hi
      rw [getItems_eq_listItems_id s (i + 1) n (by omega) hn (by omega)]
    rw [hcongr]
    exact (list_pages_partition s.inventoryList n hn).2.2

/-- Witness of `getItems_pages_partition`: three Items in pages of two. -/
theorem getItems_pages_partition_witness :
    (1 : Nat) ≤ 2 ∧ (((2 : Nat) : Int) < 2 ^ 63) ∧
    ((∀ p : Nat, 1 ≤ p → ∀ items,
        (getItems (run Store.empty [.create widget, .create gadget, .create gizmo])
          ⟨(p : Int), ((2 : Nat) : Int)⟩).2 = .okItems items → items.length ≤ 2) ∧
    (∀ p : Nat, 1 ≤ p → (p : Int) * ((2 : Nat) : Int) < 2 ^ 63 →
        ((∃ items,
            (getItems (run Store.empty [.create widget, .create gadget, .create gizmo])
              ⟨(p : Int), ((2 : Nat) : Int)⟩).2 = .okItems items)
          ↔ p ≤ ((run Store.empty
              [.create widget, .create gadget, .create gizmo]).inventoryList.length + 2 - 1)
                / 2)) ∧
    (((((run Store.empty
          [.create widget, .create gadget, .create gizmo]).inventoryList.length + 2 - 1) / 2
            : Nat) : Int) * ((2 : Nat) : Int) < 2 ^ 63 →
      ((List.range (((run Store.empty
          [.create widget, .create gadget, .create gizmo]).inventoryList.length + 2 - 1) / 2)).map
        (fun i => pageItems
          (getItems (run Store.empty [.create widget, .create gadget, .create gizmo])
            ⟨((i + 1 : Nat) : Int), ((2 : Nat) : Int)⟩).2)).flatten
        = (run Store.empty [.create widget, .create gadget, .create gizmo]).inventoryList)) :=
  ⟨by decide, by decide,
    getItems_pages_partition (run Store.empty [.create widget, .create gadget, .create gizmo]) 2
      (by decide) (by decide)⟩

/-! ## Create, Get and Update -/

/-- Claim C6: for every store and every valid payload, Create returns the number
of entries of the index before the insertion plus one, and the Item put into
the index under that id and appended to the sequence is the payload carrying
that id. -/
theorem create_returns_size_plus_one (s : Store) (p : Item) (hv : validateItem p = []) :
    (postItem s p).2 = .created ((s.inventory.entries.length : Int) + 1) ∧
    (postItem s p).1.inventory
      = s.inventory.insert ((s.inventory.entries.length : Int) + 1)
          { p with ID := (s.inventory.entries.length : Int) + 1 } ∧
    (postItem s p).1.inventory.lookup ((s.inventory.entries.length : Int) + 1)
      = some { p with ID := (s.inventory.entries.length : Int) + 1 } ∧
    (postItem s p).1.inventoryList
      = s.inventoryList ++ [{ p with ID := (s.inventory.entries.length : Int) + 1 }] := by
  rw [postItem_of_valid s p hv]
  exact ⟨rfl, rfl, AList.lookup_insert _, rfl⟩

/-- Witness of `create_returns_size_plus_one`: a second Create. -/
theorem create_returns_size_plus_one_witness :
    validateItem gadget = [] ∧
    ((postItem (run Store.empty [.create widget]) gadget).2
        = .created (((run Store.empty [.create widget]).inventory.entries.length : Int) + 1) ∧
    (postItem (run Store.empty [.create widget]) gadget).1.inventory
      = (run Store.empty [.create widget]).inventory.insert
          (((run Store.empty [.create widget]).inventory.entries.length : Int) + 1)
          { gadget with
            ID := ((run Store.empty [.create widget]).inventory.entries.length : Int) + 1 } ∧
    (postItem (run Store.empty [.create widget]) gadget).1.inventory.lookup
        (((run Store.empty [.create widget]).inventory.entries.length : Int) + 1)
      = some { gadget with
          ID := ((run Store.empty [.create widget]).inventory.entries.length : Int) + 1 } ∧
    (postItem (run Store.empty [.create widget]) gadget).1.inventoryList
      = (run Store.empty [.create widget]).inventoryList ++
          [{ gadget with
            ID := ((run Store.empty [.create widget]).inventory.entries.length : Int) + 1 }]) :=
  ⟨by decide, create_returns_size_plus_one _ gadget (by decide)⟩

/-- Claim C7: for every store and every valid payload `p`, if Create answers with
id `i`, then GetByID of `i` on the resulting store succeeds with an Item that has
the name, quantity and unit price of `p` and the ID `i`. -/
theorem create_then_get (s : Store) (p : Item) (i : Int) (hv : validateItem p = [])
    (hc : (postItem s p).2 = .created i) :
    ∃ item, (getItem (postItem s p).1 i).2 = .okItem item ∧
      item.Name = p.Name ∧ item.Quantity = p.Quantity ∧ item.UnitPrice = p.UnitPrice ∧
      item.ID = i := by
  rw [postItem_of_valid s p hv] at hc ⊢
  simp only [Response.created.injEq] at hc
  subst hc
  refine ⟨{ p with ID := (s.inventory.entries.length : Int) + 1 }, ?_, rfl, rfl, rfl, rfl⟩
  rw [getItem_of_ne_zero _ _ (by omega)]
  simp only [AList.lookup_insert]

/-- Witness of `create_then_get`: the second Create answers with id 2. -/
theorem create_then_get_witness :
    validateItem gadget = [] ∧
    (postItem (run Store.empty [.create widget]) gadget).2 = .created 2 ∧
    ∃ item, (getItem (postItem (run Store.empty [.create widget]) gadget).1 2).2 = .okItem item ∧
      item.Name = gadget.Name ∧ item.Quantity = gadget.Quantity ∧
      item.UnitPrice = gadget.UnitPrice ∧ item.ID = 2 :=
  ⟨by decide, by decide, create_then_get _ gadget 2 (by decide) (by decide)⟩

/-- Claim C8: for every store, every id in the index and every valid replacement
`r`, Update succeeds (exactly when the id passes the path binding, that is, is
not 0), and after a successful Update GetByID of the id answers with `r`
carrying that id, whatever ID `r` carried, and the index has the same ids. -/
theorem update_then_get (s : Store) (id : Int) (r : Item) (hmem : id ∈ s.inventory)
    (hv : validateItem r = []) :
    ((patchItem s id r).2 = .updated ↔ id ≠ 0) ∧
    ((patchItem s id r).2 = .updated →
      (getItem (patchItem s id r).1 id).2 = .okItem { r with ID := id } ∧
      ∀ k, k ∈ (patchItem s id r).1.inventory ↔ k ∈ s.inventory) := by
  obtain ⟨old, hold⟩ := Option.isSome_iff_exists.mp (AList.lookup_isSome.mpr hmem)
  by_cases hid : id = 0
  · subst hid
    simp [patchItem_zero]
  · rw [patchItem_of_valid s id r hid hv, hold]
    refine ⟨by simp [hid], fun _ => ⟨?_, ?_⟩⟩
    · rw [getItem_of_ne_zero _ id hid]
      simp only [AList.lookup_insert]
    · intro k
      simp only [AList.mem_insert]
      constructor
      · rintro (rfl | h)
        · exact hmem
        · exact h
      · exact Or.inr

/-- Witness of `update_then_get`: replacing the only Item; the replacement
carries ID 0 in its body. -/
theorem update_then_get_witness :
    (1 : Int) ∈ (run Store.empty [.create widget]).inventory ∧ validateItem gadget = [] ∧
    (((patchItem (run Store.empty [.create widget]) 1 gadget).2 = .updated ↔ (1 : Int) ≠ 0) ∧
    ((patchItem (run Store.empty [.create widget]) 1 gadget).2 = .updated →
      (getItem (patchItem (run Store.empty [.create widget]) 1 gadget).1 1).2
        = .okItem { gadget with ID := 1 } ∧
      ∀ k, k ∈ (patchItem (run Store.empty [.create widget]) 1 gadget).1.inventory
        ↔ k ∈ (run Store.empty [.create widget]).inventory)) :=
  ⟨by decide, by decide, update_then_get _ 1 gadget (by decide) (by decide)⟩

/-- Claim C9, evaluated on the code: in the reachable store left by Create,
Create, Delete 1, Create the sequence holds two entries with ID 2; the Update of
id 2 succeeds and overwrites the first of them only, so an entry with ID 2
that is not the replacement stays in the sequence. -/
theorem update_misses_duplicate_entry :
    Reachable (run Store.empty [.create widget, .create gadget, .delete 1, .create gizmo]) ∧
    (2 : Int) ∈
      (run Store.empty [.create widget, .create gadget, .delete 1, .create gizmo]).inventory ∧
    validateItem widget = [] ∧
    (patchItem (run Store.empty [.create widget, .create gadget, .delete 1, .create gizmo])
      2 widget).2 = .updated ∧
    (patchItem (run Store.empty [.create widget, .create gadget, .delete 1, .create gizmo])
      2 widget).1.inventoryList = [{ widget with ID := 2 }, { gizmo with ID := 2 }] ∧
    ∃ e ∈ (patchItem (run Store.empty [.create widget, .create gadget, .delete 1, .create gizmo])
      2 widget).1.inventoryList, e.ID = 2 ∧ e ≠ { widget with ID := 2 } :=
  ⟨⟨_, rfl⟩, by decide, by decide, by decide, by decide, by decide⟩

/-! ## NotFound -/

/-- Claim C10 as stated fails at id 0: on the empty store 0 is not a key of the
index, yet GetByID, Update (with a valid body) and Delete do not answer
NotFound: the path binding rejects the id first. -/
theorem notFound_iff_absent_fails_at_zero :
    validateItem widget = [] ∧
    ¬ ((getItem Store.empty 0).2 = .notFound ↔ (0 : Int) ∉ Store.empty.inventory) ∧
    ¬ ((patchItem Store.empty 0 widget).2 = .notFound ↔ (0 : Int) ∉ Store.empty.inventory) ∧
    ¬ ((deleteItem Store.empty 0).2 = .notFound ↔ (0 : Int) ∉ Store.empty.inventory) := by
  decide

/-- Claim C10, amended: for every store, every id other than 0 and every valid
body, GetByID, Update and Delete answer NotFound exactly when the id is not a
key of the index; the id 0 is rejected by the path binding with the validation
error `ID` / `required` and the store is returned as it was; and a request
answered NotFound returns the store as it was. -/
theorem notFound_iff_absent (s : Store) (id : Int) (r : Item) (hv : validateItem r = []) :
    (id ≠ 0 →
      ((getItem s id).2 = .notFound ↔ id ∉ s.inventory) ∧
      ((patchItem s id r).2 = .notFound ↔ id ∉ s.inventory) ∧
      ((deleteItem s id).2 = .notFound ↔ id ∉ s.inventory)) ∧
    (id = 0 →
      getItem s id = (s, .badRequest [⟨"ID", "required"⟩]) ∧
      patchItem s id r = (s, .badRequest [⟨"ID", "required"⟩]) ∧
      deleteItem s id = (s, .badRequest [⟨"ID", "required"⟩])) ∧
    ((getItem s id).2 = .notFound → (getItem s id).1 = s) ∧
    ((patchItem s id r).2 = .notFound → (patchItem s id r).1 = s) ∧
    ((deleteItem s id).2 = .notFound → (deleteItem s id).1 = s) := by
  by_cases hid : id = 0
  · subst hid
    simp [getItem_zero, patchItem_zero, deleteItem_zero]
  · rw [getItem_of_ne_zero s id hid, patchItem_of_valid s id r hid hv,
      deleteItem_of_ne_zero s id hid, ← lookup_eq_none_iff]
    cases hl : s.inventory.lookup id with
    | none => simp [hid]
    | some item =>
        simp only [hid, ne_eq, not_false_eq_true, false_implies, true_implies, true_and]
        refine ⟨⟨by simp, by simp, ?_⟩, by simp, by simp, ?_⟩
        · split <;> simp
        · split <;> simp

/-- Witness of `notFound_iff_absent`: id 5 on the store holding one Item. -/
theorem notFound_iff_absent_witness :
    validateItem gadget = [] ∧
    (((5 : Int) ≠ 0 →
      ((getItem (run Store.empty [.create widget]) 5).2 = .notFound
        ↔ (5 : Int) ∉ (run Store.empty [.create widget]).inventory) ∧
      ((patchItem (run Store.empty [.create widget]) 5 gadget).2 = .notFound
        ↔ (5 : Int) ∉ (run Store.empty [.create widget]).inventory) ∧
      ((deleteItem (run Store.empty [.create widget]) 5).2 = .notFound
        ↔ (5 : Int) ∉ (run Store.empty [.create widget]).inventory)) ∧
    ((5 : Int) = 0 →
      getItem (run Store.empty [.create widget]) 5
        = (run Store.empty [.create widget], .badRequest [⟨"ID", "required"⟩]) ∧
      patchItem (run Store.empty [.create widget]) 5 gadget
        = (run Store.empty [.create widget], .badRequest [⟨"ID", "required"⟩]) ∧
      deleteItem (run Store.empty [.create widget]) 5
        = (run Store.empty [.create widget], .badRequest [⟨"ID", "required"⟩])) ∧
    ((getItem (run Store.empty [.create widget]) 5).2 = .notFound →
      (getItem (run Store.empty [.create widget]) 5).1 = run Store.empty [.create widget]) ∧
    ((patchItem (run Store.empty [.create widget]) 5 gadget).2 = .notFound →
      (patchItem (run Store.empty [.create widget]) 5 gadget).1
        = run Store.empty [.create widget]) ∧
    ((deleteItem (run Store.empty [.create widget]) 5).2 = .notFound →
      (deleteItem (run Store.empty [.create widget]) 5).1 = run Store.empty [.create widget])) :=
  ⟨by decide, notFound_iff_absent _ 5 gadget (by decide)⟩

/-! ## Validation of a payload -/

/-- Claim C11 as stated fails: the payload with the alphabetic name `Widget`, the
quantity field present with value 0 and the unit price present does not pass
validation; it is rejected with `Quantity` / `required`, exactly as the payload
without a quantity field is. -/
theorem quantity_zero_fails_validation :
    isAlpha "Widget" = true ∧
    validateItem (decodeItem ⟨none, some "Widget", some 0, some ⟨4621813499262897029⟩⟩)
      = [⟨"Quantity", "required"⟩] ∧
    (postItem Store.empty
        (decodeItem ⟨none, some "Widget", some 0, some ⟨4621813499262897029⟩⟩)).2
      = .badRequest [⟨"Quantity", "required"⟩] ∧
    (postItem Store.empty
        (decodeItem ⟨none, some "Widget", none, some ⟨4621813499262897029⟩⟩)).2
      = .badRequest [⟨"Quantity", "required"⟩] := by
  decide

theorem mem_validateItem_quantity (item : Item) :
    (⟨"Quantity", "required"⟩ : FieldError) ∈ validateItem item ↔ item.Quantity = 0 := by
  unfold validateItem validateName
  by_cases hq : item.Quantity = 0 <;> by_cases hn : item.Name.data.isEmpty = true <;>
    by_cases ha : isAlpha item.Name = true <;> by_cases hu : item.UnitPrice.isZero = true <;>
    simp [hq, hn, ha, hu]

theorem validateItem_eq_nil (item : Item) :
    validateItem item = [] ↔
      isAlpha item.Name = true ∧ item.Quantity ≠ 0 ∧ item.UnitPrice.isZero = false := by
  unfold validateItem validateName
  by_cases hq : item.Quantity = 0 <;> by_cases hn : item.Name.data.isEmpty = true <;>
    by_cases ha : isAlpha item.Name = true <;> by_cases hu : item.UnitPrice.isZero = true <;>
    simp [hq, hn, ha, hu]
  · simp [isAlpha, hn] at ha

/-- Claim C11, amended: a payload passes validation exactly when its name is
present and alphabetic, its quantity is present and not 0, and its unit price is
present and not zero; the quantity constraint is violated exactly when the
quantity field is absent or is supplied as 0. -/
theorem quantity_required_iff_zero (p : Payload) :
    ((⟨"Quantity", "required"⟩ : FieldError) ∈ validateItem (decodeItem p)
        ↔ p.quantity = none ∨ p.quantity = some 0) ∧
    (validateItem (decodeItem p) = [] ↔
      ∃ n q u, p.name = some n ∧ isAlpha n = true ∧ p.quantity = some q ∧ q ≠ 0 ∧
        p.unitPrice = some u ∧ u.isZero = false) := by
  rw [mem_validateItem_quantity, validateItem_eq_nil]
  obtain ⟨i, n, q, u⟩ := p
  constructor
  · cases q <;> simp [decodeItem]
  · cases n <;> cases q <;> cases u <;> simp [decodeItem, isAlpha, Float64.isZero]

/-! ## Readable validation errors, CSV export, GetByID -/

theorem foldl_append_singleton {α β : Type} (f : α → β) (l : List α) (acc : List β) :
    l.foldl (fun errs e => errs ++ [f e]) acc = acc ++ l.map f := by
  induction l generalizing acc with
  | nil => simp
  | cons x xs ih => simp [ih]

theorem errorMapOf_entries (showErrs : List FieldError → String) (err : List FieldError)
    (e : FieldError) :
    (errorMapOf showErrs err e).entries =
      [⟨e.field, (customErrors.lookup (e.field ++ "." ++ e.tag)).getD
          ("custom message is not available: " ++ showErrs err)⟩] := by
  unfold errorMapOf
  dsimp only
  split <;> rename_i h <;> rw [h] <;> rfl

/-- Claim C12: for every list of field errors, `customValidationError` returns
one map per field error, in the same order; the map of a field error has the
single key `field`, with the message of `customErrors` at `field.tag` when the
table has that key and the fallback message otherwise; a missing name gives the
one map `Name` ↦ `is required`. -/
theorem customValidationError_validation (showErrs : List FieldError → String)
    (errs : List FieldError) :
    customValidationError showErrs (.validation errs)
      = errs.map (fun e => errorMapOf showErrs errs e) ∧
    (customValidationError showErrs (.validation errs)).length = errs.length ∧
    (∀ e : FieldError, ∀ msg, customErrors.lookup (e.field ++ "." ++ e.tag) = some msg →
      (errorMapOf showErrs errs e).entries = [⟨e.field, msg⟩]) ∧
    (∀ e : FieldError, customErrors.lookup (e.field ++ "." ++ e.tag) = none →
      (errorMapOf showErrs errs e).entries
        = [⟨e.field, "custom message is not available: " ++ showErrs errs⟩]) ∧
    customValidationError showErrs (.validation [⟨"Name", "required"⟩])
      = [(∅ : StringMap).insert "Name" "is required"] := by
  have h : customValidationError showErrs (.validation errs)
      = errs.map (fun e => errorMapOf showErrs errs e) := by
    simp only [customValidationError]
    rw [foldl_append_singleton]
    rfl
  refine ⟨h, by rw [h, List.length_map], ?_, ?_, ?_⟩
  · intro e msg hl
    rw [errorMapOf_entries, hl]
    rfl
  · intro e hl
    rw [errorMapOf_entries, hl]
    rfl
  · rfl

theorem foldl_append_join (l : List String) (acc : String) :
    l.foldl (fun r s => r ++ s) acc = acc ++ String.join l := by
  induction l generalizing acc with
  | nil => simp [String.join]
  | cons x xs ih =>
      have hj : String.join (x :: xs) = x ++ String.join xs := by
        show List.foldl (fun r s => r ++ s) "" (x :: xs) = _
        rw [List.foldl_cons, ih, String.empty_append]
      rw [List.foldl_cons, ih, hj, String.append_assoc]

theorem getCsv_content (showFloat : Float64 → String) (l : List Item) (acc : String) :
    l.foldl (fun content item => content ++ csvLine showFloat item) acc
      = acc ++ String.join (l.map (csvLine showFloat)) := by
  rw [← foldl_append_join, List.foldl_map]

/-- Claim C13: for every store, the CSV export leaves the store as it is and its
body is the header line followed by one line `ID,name,quantity,price` and a
newline per Item of the sequence, in sequence order, ID and quantity in
decimal: `|sequence| + 1` lines in all. -/
theorem csv_export_lines (showFloat : Float64 → String) (s : Store) :
    (getCsv showFloat s).1 = s ∧
    (getCsv showFloat s).2
      = String.join ("id,name,quantity,unit price\n" ::
          s.inventoryList.map (fun item =>
            toString item.ID ++ "," ++ item.Name ++ "," ++ toString item.Quantity ++ "," ++
              showFloat item.UnitPrice ++ "\n")) ∧
    ("id,name,quantity,unit price\n" ::
        s.inventoryList.map (fun item =>
          toString item.ID ++ "," ++ item.Name ++ "," ++ toString item.Quantity ++ "," ++
            showFloat item.UnitPrice ++ "\n")).length = s.inventoryList.length + 1 := by
  refine ⟨rfl, ?_, by simp⟩
  show s.inventoryList.foldl (fun content item => content ++ csvLine showFloat item) csvHeader = _
  rw [getCsv_content]
  have hj : ∀ (x : String) (xs : List String), String.join (x :: xs) = x ++ String.join xs := by
    intro x xs
    show List.foldl (fun r s => r ++ s) "" (x :: xs) = _
    rw [List.foldl_cons, foldl_append_join, String.empty_append]
  rw [hj]
  rfl

/-- Claim C14: GetByID returns the store as it was, and a second GetByID of the
same id answers as the first: NotFound both times or the same Item both times
(for id 0, the same validation error). -/
theorem getItem_idempotent (s : Store) (id : Int) :
    (getItem s id).1 = s ∧
    (getItem (getItem s id).1 id).2 = (getItem s id).2 ∧
    (getItem (getItem s id).1 id).1 = s ∧
    (id ≠ 0 → ((getItem s id).2 = .notFound ∧ s.inventory.lookup id = none) ∨
      ∃ item, (getItem s id).2 = .okItem item ∧ s.inventory.lookup id = some item) := by
  have h1 : (getItem s id).1 = s := by
    unfold getItem
    split
    · split <;> rfl
    · rfl
  refine ⟨h1, by rw [h1], by rw [h1, h1], ?_⟩
  intro hid
  rw [getItem_of_ne_zero s id hid]
  cases hl : s.inventory.lookup id with
  | none => exact Or.inl ⟨rfl, rfl⟩
  | some item => exact Or.inr ⟨item, rfl, rfl⟩

/-! ## Lemmas on the two loops and on lists of ids -/

theorem scanPosition_spec (id : Int) (l : List Item) :
    ∀ i pos : Nat,
      ((∀ x ∈ l, x.ID ≠ id) ∧ scanPosition id l i pos = pos) ∨
      ∃ j, ∃ h : j < l.length, (l.get ⟨j, h⟩).ID = id ∧ scanPosition id l i pos = i + j := by
  induction l with
  | nil => intro i pos; exact Or.inl ⟨by simp, rfl⟩
  | cons y ys ih =>
      intro i pos
      rcases ih (i + 1) (if y.ID = id then i else pos) with ⟨hno, hres⟩ | ⟨j, hj, hid, hres⟩
      · by_cases hy : y.ID = id
        · refine Or.inr ⟨0, by simp, by simpa using hy, ?_⟩
          simp only [hy, if_true] at hres
          simp only [scanPosition, hy, if_true, hres, Nat.add_zero]
        · refine Or.inl ⟨?_, ?_⟩
          · intro x hx
            rcases List.mem_cons.mp hx with rfl | hx
            · exact hy
            · exact hno x hx
          · simp only [hy, if_false] at hres
            simp only [scanPosition, hy, if_false, hres]
      · refine Or.inr ⟨j + 1, by simp; omega, by simpa using hid, ?_⟩
        simp only [scanPosition, hres]
        omega

theorem itemPosition_spec (l : List Item) (id : Int) (hex : ∃ x ∈ l, x.ID = id) :
    ∃ h : itemPosition l id < l.length, (l.get ⟨itemPosition l id, h⟩).ID = id := by
  unfold itemPosition
  rcases scanPosition_spec id l 0 0 with ⟨hno, _⟩ | ⟨j, hj, hid, hres⟩
  · obtain ⟨x, hx, hxid⟩ := hex
    exact absurd hxid (hno x hx)
  · have hj' : scanPosition id l 0 0 = j := by omega
    rw [hj']
    exact ⟨hj, hid⟩

theorem replaceFirst_map_ID (id : Int) (item : Item) (hitem : item.ID = id) (l : List Item) :
    (replaceFirst id item l).map (fun x => x.ID) = l.map (fun x => x.ID) := by
  induction l with
  | nil => rfl
  | cons y ys ih =>
      unfold replaceFirst
      by_cases hy : y.ID = id
      · simp [hy, hitem]
      · simp [hy, ih]

theorem replaceFirst_length (id : Int) (item : Item) (l : List Item) :
    (replaceFirst id item l).length = l.length := by
  induction l with
  | nil => rfl
  | cons y ys ih =>
      unfold replaceFirst
      by_cases hy : y.ID = id
      · simp [hy]
      · simp [hy, ih]

theorem mem_replaceFirst (id : Int) (item : Item) (l : List Item)
    (hnd : (l.map (fun x => x.ID)).Nodup) (x : Item) (hx : x ∈ replaceFirst id item l) :
    x = item ∨ (x ∈ l ∧ x.ID ≠ id) := by
  induction l with
  | nil => simp [replaceFirst] at hx
  | cons y ys ih =>
      rw [List.map_cons, List.nodup_cons] at hnd
      unfold replaceFirst at hx
      by_cases hy : y.ID = id
      · simp only [hy, if_true, List.mem_cons] at hx
        rcases hx with rfl | hx
        · exact Or.inl rfl
        · refine Or.inr ⟨List.mem_cons_of_mem _ hx, ?_⟩
          intro hxid
          apply hnd.1
          rw [hy, ← hxid]
          exact List.mem_map_of_mem _ hx
      · simp only [hy, if_false, List.mem_cons] at hx
        rcases hx with rfl | hx
        · exact Or.inr ⟨List.mem_cons_self _ _, hy⟩
        · rcases ih hnd.2 hx with h | ⟨h1, h2⟩
          · exact Or.inl h
          · exact Or.inr ⟨List.mem_cons_of_mem _ h1, h2⟩

theorem filter_ID_eq_singleton (l : List Item) (hnd : (l.map (fun x => x.ID)).Nodup)
    (x : Item) (hx : x ∈ l) : l.filter (fun y => y.ID = x.ID) = [x] := by
  induction l with
  | nil => simp at hx
  | cons y ys ih =>
      rw [List.map_cons, List.nodup_cons] at hnd
      rcases List.mem_cons.mp hx with rfl | hx
      · have hnone : ys.filter (fun y => y.ID = x.ID) = [] := by
          rw [List.filter_eq_nil_iff]
          intro z hz hzid
          apply hnd.1
          have : z.ID = x.ID := by simpa using hzid
          rw [← this]
          exact List.mem_map_of_mem _ hz
        simp [List.filter_cons, hnone]
      · have hne : y.ID ≠ x.ID := by
          intro h
          apply hnd.1
          rw [h]
          exact List.mem_map_of_mem _ hx
        simp [List.filter_cons, hne, ih hnd.2 hx]

theorem mem_eraseIdx_of_ne (l : List Item) (pos : Nat) (h : pos < l.length) (x : Item)
    (hx : x ∈ l) (hne : x ≠ l.get ⟨pos, h⟩) : x ∈ l.eraseIdx pos := by
  induction l generalizing pos with
  | nil => simp at hx
  | cons y ys ih =>
      cases pos with
      | zero =>
          simp only [List.eraseIdx_cons_zero]
          rcases List.mem_cons.mp hx with rfl | hx
          · exact absurd rfl hne
          · exact hx
      | succ pos =>
          simp only [List.eraseIdx_cons_succ, List.mem_cons]
          rcases List.mem_cons.mp hx with rfl | hx
          · exact Or.inl rfl
          · exact Or.inr (ih pos (by simpa using h) hx (by simpa using hne))

theorem idsUpTo_succ (n : Nat) : idsUpTo (n + 1) = idsUpTo n ++ [(n : Int) + 1] := by
  simp [idsUpTo, List.range_succ]

theorem idsUpTo_nodup (n : Nat) : (idsUpTo n).Nodup := by
  unfold idsUpTo
  apply List.Nodup.map _ (List.nodup_range n)
  intro a b h
  simp only at h
  omega

theorem mem_idsUpTo (n : Nat) (k : Int) : k ∈ idsUpTo n ↔ 1 ≤ k ∧ k ≤ n := by
  unfold idsUpTo
  simp only [List.mem_map, List.mem_range]
  constructor
  · rintro ⟨i, hi, rfl⟩
    omega
  · rintro ⟨h1, h2⟩
    exact ⟨(k - 1).toNat, by omega, by omega⟩

/-! ## Lemmas on the size of the index -/

theorem entries_length_insert_of_mem (m : ItemMap) (k : Int) (v : Item) (hk : k ∈ m) :
    (m.insert k v).entries.length = m.entries.length := by
  have hkeys : k ∈ m.entries.keys := hk
  have h1 : (List.kerase k m.entries).length + 1 = m.entries.length := by
    have := congrArg List.length (List.keys_kerase (a := k) (l := m.entries))
    rw [List.length_erase_of_mem hkeys] at this
    simp only [List.keys, List.length_map] at this
    have hpos : 0 < m.entries.length := by
      have := List.length_pos_of_mem hkeys
      simpa [List.keys] using this
    omega
  rw [AList.insert_entries, List.length_cons, h1]

theorem entries_length_insert_of_not_mem (m : ItemMap) (k : Int) (v : Item) (hk : k ∉ m) :
    (m.insert k v).entries.length = m.entries.length + 1 := by
  rw [AList.insert_entries_of_neg hk, List.length_cons]

theorem entries_length_erase_of_mem (m : ItemMap) (k : Int) (hk : k ∈ m) :
    (m.erase k).entries.length + 1 = m.entries.length := by
  have hkeys : k ∈ m.entries.keys := hk
  have := congrArg List.length (List.keys_kerase (a := k) (l := m.entries))
  rw [List.length_erase_of_mem hkeys] at this
  simp only [List.keys, List.length_map] at this
  have hpos : 0 < m.entries.length := by
    have := List.length_pos_of_mem hkeys
    simpa [List.keys] using this
  show (List.kerase k m.entries).length + 1 = m.entries.length
  omega

theorem mem_of_lookup_eq_some (m : ItemMap) (k : Int) (v : Item) (h : m.lookup k = some v) :
    k ∈ m := by
  rw [← AList.lookup_isSome, h]
  rfl

/-! ## Invariants of reachable stores -/

theorem keysPositive_empty : KeysPositive Store.empty := by
  intro k hk
  simp [Store.empty] at hk

theorem keysListed_empty : KeysListed Store.empty := by
  intro k hk
  simp [Store.empty] at hk

theorem keysPositive_postItem (s : Store) (body : Item) (hs : KeysPositive s) :
    KeysPositive (postItem s body).1 := by
  by_cases hv : validateItem body = []
  · rw [postItem_of_valid s body hv]
    intro k hk
    rcases (AList.mem_insert _).mp hk with rfl | hk
    · omega
    · exact hs k hk
  · unfold postItem
    split
    · rename_i h; exact absurd h hv
    · exact hs

theorem keysListed_postItem (s : Store) (body : Item) (hs : KeysListed s) :
    KeysListed (postItem s body).1 := by
  by_cases hv : validateItem body = []
  · rw [postItem_of_valid s body hv]
    intro k hk
    rcases (AList.mem_insert _).mp hk with rfl | hk
    · exact ⟨_, List.mem_append_right _ (List.mem_singleton_self _), rfl⟩
    · obtain ⟨x, hx, hxid⟩ := hs k hk
      exact ⟨x, List.mem_append_left _ hx, hxid⟩
  · unfold postItem
    split
    · rename_i h; exact absurd h hv
    · exact hs

/-- The store after a PATCH is the old one, or the old one with the body put at `id`. -/
theorem patchItem_cases (s : Store) (id : Int) (body : Item) :
    (patchItem s id body).1 = s ∨
    (id ∈ s.inventory ∧
      (patchItem s id body).1 =
        { inventory := s.inventory.insert id { body with ID := id },
          inventoryList := replaceFirst id { body with ID := id } s.inventoryList }) := by
  unfold patchItem
  split
  · split
    · split
      · exact Or.inl rfl
      · rename_i old hl
        exact Or.inr ⟨mem_of_lookup_eq_some _ _ _ hl, rfl⟩
    · exact Or.inl rfl
  · exact Or.inl rfl

theorem keysPositive_patchItem (s : Store) (id : Int) (body : Item) (hs : KeysPositive s) :
    KeysPositive (patchItem s id body).1 := by
  rcases patchItem_cases s id body with h | ⟨hmem, h⟩
  · rw [h]; exact hs
  · rw [h]
    intro k hk
    rcases (AList.mem_insert _).mp hk with rfl | hk
    · exact hs k hmem
    · exact hs k hk

theorem exists_mem_of_map_ID_eq (l l' : List Item)
    (h : l'.map (fun x => x.ID) = l.map (fun x => x.ID)) (k : Int)
    (hex : ∃ x ∈ l, x.ID = k) : ∃ x ∈ l', x.ID = k := by
  obtain ⟨x, hx, hxid⟩ := hex
  have : k ∈ l'.map (fun x => x.ID) := by
    rw [h, ← hxid]
    exact List.mem_map_of_mem _ hx
  obtain ⟨y, hy, hyid⟩ := List.mem_map.mp this
  exact ⟨y, hy, hyid⟩

theorem keysListed_patchItem (s : Store) (id : Int) (body : Item) (hs : KeysListed s) :
    KeysListed (patchItem s id body).1 := by
  rcases patchItem_cases s id body with h | ⟨hmem, h⟩
  · rw [h]; exact hs
  · rw [h]
    intro k hk
    have hk' : k ∈ s.inventory := by
      rcases (AList.mem_insert _).mp hk with rfl | hk
      · exact hmem
      · exact hk
    exact exists_mem_of_map_ID_eq _ _ (replaceFirst_map_ID id _ rfl _) k (hs k hk')

/-- The store after a DELETE is the old one, or the old one without the key
`id` and without the entry at `itemPosition`, which is an entry with ID `id`. -/
theorem deleteItem_cases (s : Store) (id : Int) (hm : KeysMatch s) (hl : KeysListed s) :
    ((deleteItem s id).1 = s ∧ (deleteItem s id).2 ≠ .deleted ∧ (id = 0 ∨ id ∉ s.inventory)) ∨
    (id ≠ 0 ∧ id ∈ s.inventory ∧
      ∃ h : itemPosition s.inventoryList id < s.inventoryList.length,
        (s.inventoryList.get ⟨itemPosition s.inventoryList id, h⟩).ID = id ∧
        deleteItem s id =
          ({ inventory := s.inventory.erase id,
             inventoryList := s.inventoryList.eraseIdx (itemPosition s.inventoryList id) },
           .deleted)) := by
  by_cases hid : id = 0
  · subst hid
    rw [deleteItem_zero]
    exact Or.inl ⟨rfl, by simp, Or.inl rfl⟩
  · rw [deleteItem_of_ne_zero s id hid]
    cases hlk : s.inventory.lookup id with
    | none => exact Or.inl ⟨rfl, by simp, Or.inr ((lookup_eq_none_iff s id).mp hlk)⟩
    | some item =>
        have hmem : id ∈ s.inventory := mem_of_lookup_eq_some _ _ _ hlk
        obtain ⟨hpos, hposid⟩ := itemPosition_spec s.inventoryList id (hl id hmem)
        refine Or.inr ⟨hid, hmem, hpos, hposid, ?_⟩
        have hle : itemPosition s.inventoryList id + 1 ≤ s.inventoryList.length := hpos
        simp only [hle, if_true, hm id item hlk, List.eraseIdx_eq_take_drop_succ]

theorem keysPositive_deleteItem (s : Store) (id : Int) (hm : KeysMatch s) (hl : KeysListed s)
    (hs : KeysPositive s) : KeysPositive (deleteItem s id).1 := by
  rcases deleteItem_cases s id hm hl with ⟨h, _⟩ | ⟨_, _, _, _, h⟩
  · rw [h]; exact hs
  · rw [h]
    intro k hk
    exact hs k (AList.mem_erase.mp hk).2

theorem keysListed_deleteItem (s : Store) (id : Int) (hm : KeysMatch s) (hl : KeysListed s) :
    KeysListed (deleteItem s id).1 := by
  rcases deleteItem_cases s id hm hl with ⟨h, _⟩ | ⟨_, _, hpos, hposid, h⟩
  · rw [h]; exact hl
  · rw [h]
    intro k hk
    obtain ⟨hne, hk'⟩ := AList.mem_erase.mp hk
    obtain ⟨x, hx, hxid⟩ := hl k hk'
    refine ⟨x, mem_eraseIdx_of_ne _ _ hpos x hx ?_, hxid⟩
    intro hxe
    apply hne
    rw [← hxid, hxe, hposid]

/-- The three invariants of reachable stores together. -/
theorem invariants_step (s : Store) (op : Op)
    (h : KeysMatch s ∧ KeysListed s ∧ KeysPositive s) :
    KeysMatch (step s op).1 ∧ KeysListed (step s op).1 ∧ KeysPositive (step s op).1 := by
  obtain ⟨hm, hl, hp⟩ := h
  refine ⟨keysMatch_step s op hm, ?_, ?_⟩
  · cases op with
    | create body => exact keysListed_postItem s body hl
    | update id body => exact keysListed_patchItem s id body hl
    | delete id => exact keysListed_deleteItem s id hm hl
  · cases op with
    | create body => exact keysPositive_postItem s body hp
    | update id body => exact keysPositive_patchItem s id body hp
    | delete id => exact keysPositive_deleteItem s id hm hl hp

theorem invariants_run (ops : List Op) :
    ∀ s : Store, KeysMatch s ∧ KeysListed s ∧ KeysPositive s →
      KeysMatch (run s ops) ∧ KeysListed (run s ops) ∧ KeysPositive (run s ops) := by
  induction ops with
  | nil => intro s hs; exact hs
  | cons op ops ih =>
      intro s hs
      exact ih (step s op).1 (invariants_step s op hs)

theorem invariants_of_reachable (s : Store) (hs : Reachable s) :
    KeysMatch s ∧ KeysListed s ∧ KeysPositive s := by
  obtain ⟨ops, rfl⟩ := hs
  exact invariants_run ops Store.empty ⟨keysMatch_empty, keysListed_empty, keysPositive_empty⟩

/-- Claim C18: in every reachable store each index entry is stored under its own
id, and that id is at least 1; so a GetByID that succeeds returns an Item whose
ID is the requested id. -/
theorem index_entry_under_own_id (s : Store) (hs : Reachable s) :
    (∀ k item, s.inventory.lookup k = some item → item.ID = k ∧ 1 ≤ k) ∧
    (∀ id item, (getItem s id).2 = .okItem item → item.ID = id) := by
  obtain ⟨hm, _, hp⟩ := invariants_of_reachable s hs
  have h1 : ∀ k item, s.inventory.lookup k = some item → item.ID = k ∧ 1 ≤ k :=
    fun k item h => ⟨hm k item h, hp k (mem_of_lookup_eq_some _ _ _ h)⟩
  refine ⟨h1, ?_⟩
  intro id item hg
  by_cases hid : id = 0
  · subst hid
    rw [getItem_zero] at hg
    simp at hg
  · rw [getItem_of_ne_zero s id hid] at hg
    cases hl : s.inventory.lookup id with
    | none => rw [hl] at hg; simp at hg
    | some x =>
        rw [hl] at hg
        simp only [Response.okItem.injEq] at hg
        rw [← hg]
        exact (h1 id x hl).1

/-- Witness of `index_entry_under_own_id`: the store after Create, Create,
Delete 1, Create. -/
theorem index_entry_under_own_id_witness :
    Reachable (run Store.empty [.create widget, .create gadget, .delete 1, .create gizmo]) ∧
    ((∀ k item,
        (run Store.empty [.create widget, .create gadget, .delete 1, .create gizmo]).inventory.lookup
            k = some item → item.ID = k ∧ 1 ≤ k) ∧
    (∀ id item,
        (getItem (run Store.empty [.create widget, .create gadget, .delete 1, .create gizmo])
          id).2 = .okItem item → item.ID = id)) :=
  ⟨⟨_, rfl⟩, index_entry_under_own_id _ ⟨_, rfl⟩⟩

/-- Claim C17: in every reachable store every key of the index is the ID of
some entry of the sequence; hence, for a Delete whose id is in the index,
`itemPosition` is in bounds and points at an entry with the requested ID, the
handler answers `deleted` (no panic), the new sequence is the old one without
the entry at that position: one entry shorter, the others in their order. -/
theorem delete_removes_matching_entry (s : Store) (hs : Reachable s) :
    (∀ k, k ∈ s.inventory → ∃ item ∈ s.inventoryList, item.ID = k) ∧
    (∀ id, id ∈ s.inventory →
      ∃ h : itemPosition s.inventoryList id < s.inventoryList.length,
        (s.inventoryList.get ⟨itemPosition s.inventoryList id, h⟩).ID = id ∧
        (deleteItem s id).2 = .deleted ∧
        (deleteItem s id).1.inventoryList
          = s.inventoryList.eraseIdx (itemPosition s.inventoryList id) ∧
        (deleteItem s id).1.inventoryList.length + 1 = s.inventoryList.length ∧
        List.Sublist (deleteItem s id).1.inventoryList s.inventoryList) := by
  obtain ⟨hm, hl, hp⟩ := invariants_of_reachable s hs
  refine ⟨hl, ?_⟩
  intro id hmem
  rcases deleteItem_cases s id hm hl with ⟨_, _, h0 | hno⟩ | ⟨_, _, hpos, hposid, h⟩
  · subst h0
    have := hp 0 hmem
    omega
  · exact absurd hmem hno
  · refine ⟨hpos, hposid, ?_⟩
    rw [h]
    refine ⟨rfl, rfl, ?_, List.eraseIdx_sublist _ _⟩
    show (s.inventoryList.eraseIdx _).length + 1 = _
    rw [List.length_eraseIdx_of_lt hpos]
    omega

/-- Witness of `delete_removes_matching_entry`: the store after Create, Create,
Delete 1, Create, whose sequence holds two entries with ID 2. -/
theorem delete_removes_matching_entry_witness :
    Reachable (run Store.empty [.create widget, .create gadget, .delete 1, .create gizmo]) ∧
    ((∀ k, k ∈ (run Store.empty
          [.create widget, .create gadget, .delete 1, .create gizmo]).inventory →
        ∃ item ∈ (run Store.empty
          [.create widget, .create gadget, .delete 1, .create gizmo]).inventoryList,
          item.ID = k) ∧
    (∀ id, id ∈ (run Store.empty
          [.create widget, .create gadget, .delete 1, .create gizmo]).inventory →
      ∃ h : itemPosition (run Store.empty
          [.create widget, .create gadget, .delete 1, .create gizmo]).inventoryList id
            < (run Store.empty
          [.create widget, .create gadget, .delete 1, .create gizmo]).inventoryList.length,
        ((run Store.empty
          [.create widget, .create gadget, .delete 1, .create gizmo]).inventoryList.get
            ⟨itemPosition (run Store.empty
              [.create widget, .create gadget, .delete 1, .create gizmo]).inventoryList id,
              h⟩).ID = id ∧
        (deleteItem (run Store.empty
          [.create widget, .create gadget, .delete 1, .create gizmo]) id).2 = .deleted ∧
        (deleteItem (run Store.empty
          [.create widget, .create gadget, .delete 1, .create gizmo]) id).1.inventoryList
          = (run Store.empty
              [.create widget, .create gadget, .delete 1, .create gizmo]).inventoryList.eraseIdx
              (itemPosition (run Store.empty
                [.create widget, .create gadget, .delete 1, .create gizmo]).inventoryList id) ∧
        (deleteItem (run Store.empty
          [.create widget, .create gadget, .delete 1, .create gizmo]) id).1.inventoryList.length
            + 1
          = (run Store.empty
              [.create widget, .create gadget, .delete 1, .create gizmo]).inventoryList.length ∧
        List.Sublist
          (deleteItem (run Store.empty
            [.create widget, .create gadget, .delete 1, .create gizmo]) id).1.inventoryList
          (run Store.empty
            [.create widget, .create gadget, .delete 1, .create gizmo]).inventoryList)) :=
  ⟨⟨_, rfl⟩, delete_removes_matching_entry _ ⟨_, rfl⟩⟩

/-! ## Runs without Delete -/

theorem dense_empty : Dense Store.empty := by
  refine ⟨rfl, rfl, ?_, ?_⟩
  · intro item h; simp [Store.empty] at h
  · intro k h; simp [Store.empty] at h

theorem dense_ID_bounds (s : Store) (hs : Dense s) (item : Item) (h : item ∈ s.inventoryList) :
    1 ≤ item.ID ∧ item.ID ≤ (s.inventoryList.length : Int) := by
  have : item.ID ∈ s.inventoryList.map (fun x => x.ID) := List.mem_map_of_mem _ h
  rw [hs.1] at this
  exact (mem_idsUpTo _ _).mp this

theorem dense_postItem (s : Store) (body : Item) (hv : validateItem body = []) (hs : Dense s) :
    Dense (postItem s body).1 ∧
    (postItem s body).2 = .created ((s.inventoryList.length : Int) + 1) ∧
    (postItem s body).1.inventoryList.length = s.inventoryList.length + 1 := by
  obtain ⟨ha, hb, hc, hd⟩ := hs
  rw [postItem_of_valid s body hv, hb]
  have hnew : ((s.inventoryList.length : Int) + 1) ∉ s.inventory := by
    intro h
    have := (hd _ h).2
    omega
  refine ⟨⟨?_, ?_, ?_, ?_⟩, rfl, by simp⟩
  · simp only [List.map_append, List.map_cons, List.map_nil, List.length_append,
      List.length_singleton, idsUpTo_succ, ha]
  · simp only [List.length_append, List.length_singleton]
    rw [entries_length_insert_of_not_mem _ _ _ hnew, hb]
  · intro item hi
    rcases List.mem_append.mp hi with hi | hi
    · have hne : item.ID ≠ (s.inventoryList.length : Int) + 1 := by
        have := (dense_ID_bounds s ⟨ha, hb, hc, hd⟩ item hi).2
        omega
      simp only [AList.lookup_insert_ne hne]
      exact hc item hi
    · rw [List.mem_singleton] at hi
      subst hi
      simp only [AList.lookup_insert]
  · intro k hk
    simp only [List.length_append, List.length_singleton]
    rcases (AList.mem_insert _).mp hk with rfl | hk
    · constructor <;> push_cast <;> omega
    · have := hd k hk
      constructor <;> push_cast <;> omega

theorem dense_patchItem (s : Store) (id : Int) (body : Item) (hs : Dense s) :
    Dense (patchItem s id body).1 ∧
    (patchItem s id body).1.inventoryList.length = s.inventoryList.length := by
  rcases patchItem_cases s id body with h | ⟨hmem, h⟩
  · rw [h]; exact ⟨hs, rfl⟩
  · obtain ⟨ha, hb, hc, hd⟩ := hs
    rw [h]
    have hlen := replaceFirst_length id { body with ID := id } s.inventoryList
    have hids := replaceFirst_map_ID id { body with ID := id } rfl s.inventoryList
    refine ⟨⟨?_, ?_, ?_, ?_⟩, hlen⟩
    · simp only [hlen, hids, ha]
    · simp only [hlen]
      rw [entries_length_insert_of_mem _ _ _ hmem, hb]
    · intro item hi
      have hnd : (s.inventoryList.map (fun x => x.ID)).Nodup := by
        rw [ha]; exact idsUpTo_nodup _
      rcases mem_replaceFirst id _ _ hnd item hi with rfl | ⟨hi', hne⟩
      · simp only [AList.lookup_insert]
      · simp only [AList.lookup_insert_ne hne]
        exact hc item hi'
    · intro k hk
      simp only [hlen]
      rcases (AList.mem_insert _).mp hk with rfl | hk
      · exact hd _ hmem
      · exact hd k hk

theorem createdIds_cons_created (id : Int) (rs : List Response) :
    createdIds (.created id :: rs) = id :: createdIds rs := rfl

theorem createdIds_patchItem (s : Store) (id : Int) (body : Item) (rs : List Response) :
    createdIds ((patchItem s id body).2 :: rs) = createdIds rs := by
  unfold patchItem
  split
  · split
    · split <;> rfl
    · rfl
  · rfl

/-- Ids from `m + 1` on. -/
theorem idsFrom_succ (m c : Nat) :
    (List.range (c + 1)).map (fun i : Nat => ((m + i : Nat) : Int) + 1)
      = ((m : Int) + 1) :: (List.range c).map (fun i : Nat => ((m + 1 + i : Nat) : Int) + 1) := by
  rw [List.range_succ_eq_map, List.map_cons, List.map_map]
  simp only [Nat.add_zero, List.cons.injEq, true_and]
  apply List.map_congr_left
  intro i _
  simp only [Function.comp, Nat.succ_eq_add_one]
  push_cast
  ring

theorem dense_run (ops : List Op) :
    ∀ s : Store, Dense s → (∀ op ∈ ops, op.isDelete = false) →
      (∀ body, Op.create body ∈ ops → validateItem body = []) →
      Dense (run s ops) ∧
      (run s ops).inventoryList.length = s.inventoryList.length + ops.countP Op.isCreate ∧
      createdIds (responses s ops)
        = (List.range (ops.countP Op.isCreate)).map
            (fun i : Nat => ((s.inventoryList.length + i : Nat) : Int) + 1) := by
  induction ops with
  | nil => intro s hs _ _; exact ⟨hs, by simp [run], by simp [responses, createdIds]⟩
  | cons op ops ih =>
      intro s hs hnd hv
      have hnd' : ∀ o ∈ ops, o.isDelete = false := fun o ho => hnd o (List.mem_cons_of_mem _ ho)
      have hv' : ∀ body, Op.create body ∈ ops → validateItem body = [] :=
        fun b hb => hv b (List.mem_cons_of_mem _ hb)
      cases op with
      | create body =>
          obtain ⟨hd, hr, hlen⟩ := dense_postItem s body (hv body (List.mem_cons_self _ _)) hs
          obtain ⟨ih1, ih2, ih3⟩ := ih (postItem s body).1 hd hnd' hv'
          refine ⟨ih1, ?_, ?_⟩
          · show (run (postItem s body).1 ops).inventoryList.length = _
            rw [ih2, hlen]
            simp [Op.isCreate]
            omega
          · show createdIds ((postItem s body).2 :: responses (postItem s body).1 ops) = _
            rw [hr, createdIds_cons_created, ih3, hlen]
            have hc : (Op.create body :: ops).countP Op.isCreate
                = ops.countP Op.isCreate + 1 := by
              simp [Op.isCreate]
            rw [hc, idsFrom_succ]
      | update id body =>
          obtain ⟨hd, hlen⟩ := dense_patchItem s id body hs
          obtain ⟨ih1, ih2, ih3⟩ := ih (patchItem s id body).1 hd hnd' hv'
          have hc : (Op.update id body :: ops).countP Op.isCreate = ops.countP Op.isCreate := by
            simp [Op.isCreate]
          refine ⟨ih1, ?_, ?_⟩
          · show (run (patchItem s id body).1 ops).inventoryList.length = _
            rw [ih2, hlen, hc]
          · show createdIds ((patchItem s id body).2 :: responses (patchItem s id body).1 ops) = _
            rw [createdIds_patchItem, ih3, hlen, hc]
      | delete id =>
          have := hnd (.delete id) (List.mem_cons_self _ _)
          simp [Op.isDelete] at this

theorem dense_inSync (s : Store) (hs : Dense s) : InSync s := by
  obtain ⟨ha, hb, hc, hd⟩ := hs
  refine ⟨hc, ?_⟩
  intro e he
  have hlk : s.inventory.lookup e.1 = some e.2 :=
    Option.mem_def.mp (AList.mem_lookup_iff.mpr he)
  have hmem : e.1 ∈ s.inventory := mem_of_lookup_eq_some _ _ _ hlk
  have hin : e.1 ∈ s.inventoryList.map (fun x => x.ID) := by
    rw [ha]
    exact (mem_idsUpTo _ _).mpr (hd _ hmem)
  obtain ⟨x, hx, hxid⟩ := List.mem_map.mp hin
  have hxl := hc x hx
  rw [hxid, hlk] at hxl
  simp only [Option.some.injEq] at hxl
  rw [hxl]
  have hndl : s.inventoryList.Nodup := by
    apply List.Nodup.of_map (fun x => x.ID)
    rw [ha]
    exact idsUpTo_nodup _
  exact List.count_eq_one_of_mem hndl hx

theorem dense_lookup_getElem (s : Store) (hs : Dense s) (k : Nat)
    (hk : k < s.inventoryList.length) :
    s.inventory.lookup ((k : Int) + 1) = some (s.inventoryList.get ⟨k, hk⟩) := by
  have hid : (s.inventoryList.get ⟨k, hk⟩).ID = (k : Int) + 1 := by
    have h1 : (s.inventoryList.map (fun x => x.ID))[k]? = (idsUpTo s.inventoryList.length)[k]? := by
      rw [hs.1]
    simp only [List.getElem?_map, idsUpTo, List.getElem?_range hk,
      List.getElem?_eq_getElem hk, Option.map_some'] at h1
    simpa using h1
  rw [← hid]
  exact hs.2.2.1 _ (List.get_mem _ _ _)

/-- Claim C16: in a run from the empty store with no Delete, whose Creates carry
valid payloads, with `n` the number of Creates: the Creates return the ids
`1, ..., n` in this order, the unpaginated List returns the sequence, which has
`n` Items with the IDs `1, ..., n` in this order, the index holds at each `k` in
`1..n` the `k`-th Item of the sequence and has no other key, and the two views
are in sync. -/
theorem creates_and_updates_in_sync (ops : List Op)
    (hnd : ∀ op ∈ ops, op.isDelete = false)
    (hv : ∀ body, Op.create body ∈ ops → validateItem body = []) :
    createdIds (responses Store.empty ops) = idsUpTo (ops.countP Op.isCreate) ∧
    (getItems (run Store.empty ops) ⟨0, 0⟩).2 = .okItems (run Store.empty ops).inventoryList ∧
    (run Store.empty ops).inventoryList.length = ops.countP Op.isCreate ∧
    (run Store.empty ops).inventoryList.map (fun item => item.ID)
      = idsUpTo (ops.countP Op.isCreate) ∧
    (∀ k : Nat, ∀ h : k < (run Store.empty ops).inventoryList.length,
      (run Store.empty ops).inventory.lookup ((k : Int) + 1)
        = some ((run Store.empty ops).inventoryList.get ⟨k, h⟩)) ∧
    (∀ k, k ∈ (run Store.empty ops).inventory ↔ 1 ≤ k ∧ k ≤ (ops.countP Op.isCreate : Int)) ∧
    InSync (run Store.empty ops) := by
  obtain ⟨hd, hlen, hids⟩ := dense_run ops Store.empty dense_empty hnd hv
  have hlen' : (run Store.empty ops).inventoryList.length = ops.countP Op.isCreate := by
    rw [hlen]; simp [Store.empty]
  refine ⟨?_, rfl, hlen', ?_, ?_, ?_, dense_inSync _ hd⟩
  · rw [hids]
    simp [Store.empty, idsUpTo]
  · rw [hd.1, hlen']
  · intro k h
    exact dense_lookup_getElem _ hd k h
  · intro k
    constructor
    · intro hk
      have := hd.2.2.2 k hk
      rw [hlen'] at this
      exact this
    · intro hk
      rw [← hlen'] at hk
      have hin : k ∈ (run Store.empty ops).inventoryList.map (fun x => x.ID) := by
        rw [hd.1]
        exact (mem_idsUpTo _ _).mpr hk
      obtain ⟨x, hx, hxid⟩ := List.mem_map.mp hin
      rw [← hxid]
      exact mem_of_lookup_eq_some _ _ _ (hd.2.2.1 x hx)

/-- Witness of `creates_and_updates_in_sync`: Create, Update 1, Create. -/
theorem creates_and_updates_in_sync_witness :
    (∀ op ∈ [Op.create widget, Op.update 1 gizmo, Op.create gadget], op.isDelete = false) ∧
    (∀ body, Op.create body ∈ [Op.create widget, Op.update 1 gizmo, Op.create gadget] →
      validateItem body = []) ∧
    (createdIds (responses Store.empty [Op.create widget, Op.update 1 gizmo, Op.create gadget])
      = idsUpTo ([Op.create widget, Op.update 1 gizmo, Op.create gadget].countP Op.isCreate) ∧
    (getItems (run Store.empty [Op.create widget, Op.update 1 gizmo, Op.create gadget]) ⟨0, 0⟩).2
      = .okItems (run Store.empty
          [Op.create widget, Op.update 1 gizmo, Op.create gadget]).inventoryList ∧
    (run Store.empty [Op.create widget, Op.update 1 gizmo, Op.create gadget]).inventoryList.length
      = [Op.create widget, Op.update 1 gizmo, Op.create gadget].countP Op.isCreate ∧
    (run Store.empty [Op.create widget, Op.update 1 gizmo, Op.create gadget]).inventoryList.map
        (fun item => item.ID)
      = idsUpTo ([Op.create widget, Op.update 1 gizmo, Op.create gadget].countP Op.isCreate) ∧
    (∀ k : Nat, ∀ h : k < (run Store.empty
          [Op.create widget, Op.update 1 gizmo, Op.create gadget]).inventoryList.length,
      (run Store.empty [Op.create widget, Op.update 1 gizmo, Op.create gadget]).inventory.lookup
          ((k : Int) + 1)
        = some ((run Store.empty
            [Op.create widget, Op.update 1 gizmo, Op.create gadget]).inventoryList.get ⟨k, h⟩)) ∧
    (∀ k, k ∈ (run Store.empty
          [Op.create widget, Op.update 1 gizmo, Op.create gadget]).inventory
        ↔ 1 ≤ k ∧
          k ≤ ([Op.create widget, Op.update 1 gizmo, Op.create gadget].countP Op.isCreate : Int)) ∧
    InSync (run Store.empty [Op.create widget, Op.update 1 gizmo, Op.create gadget])) :=
  ⟨by decide,
    by intro body h; simp at h; rcases h with rfl | rfl <;> decide,
    creates_and_updates_in_sync [Op.create widget, Op.update 1 gizmo, Op.create gadget]
      (by decide) (by intro body h; simp at h; rcases h with rfl | rfl <;> decide)⟩

/-! ## Create after Delete -/

theorem run_append (s : Store) (a b : List Op) : run s (a ++ b) = run (run s a) b := by
  unfold run
  rw [List.foldl_append]

theorem countP_isCreate_map_create (ps : List Item) :
    (ps.map Op.create).countP Op.isCreate = ps.length := by
  induction ps with
  | nil => rfl
  | cons x xs ih => simp [Op.isCreate, ih]

theorem dense_afterCreates (ps : List Item) (hv : ∀ x ∈ ps, validateItem x = []) :
    Dense (afterCreates ps) ∧ (afterCreates ps).inventoryList.length = ps.length := by
  have h := dense_run (ps.map Op.create) Store.empty dense_empty
    (by intro op hop; obtain ⟨x, _, rfl⟩ := List.mem_map.mp hop; rfl)
    (by
      intro body hb
      obtain ⟨x, hx, hxe⟩ := List.mem_map.mp hb
      simp only [Op.create.injEq] at hxe
      subst hxe
      exact hv x hx)
  refine ⟨h.1, ?_⟩
  unfold afterCreates
  rw [h.2.1, countP_isCreate_map_create]
  simp [Store.empty]

theorem afterCreates_snoc (ps : List Item) (p : Item) :
    afterCreates (ps ++ [p]) = (postItem (afterCreates ps) p).1 := by
  unfold afterCreates
  rw [List.map_append, run_append]
  rfl

theorem dense_mem (s : Store) (hs : Dense s) (k : Int) (h1 : 1 ≤ k)
    (h2 : k ≤ (s.inventoryList.length : Int)) : k ∈ s.inventory := by
  have hin : k ∈ s.inventoryList.map (fun x => x.ID) := by
    rw [hs.1]
    exact (mem_idsUpTo _ _).mpr ⟨h1, h2⟩
  obtain ⟨x, hx, hxid⟩ := List.mem_map.mp hin
  rw [← hxid]
  exact mem_of_lookup_eq_some _ _ _ (hs.2.2.1 x hx)

/-- Claim C15: from the empty store, after `n ≥ 2` valid Creates (the payloads
`ps` and then `p`, so `n = |ps| + 1`) and the Delete of an id `k` with
`1 ≤ k < n`: the Delete succeeds, the index still holds at `n` the Item created
last, which is still in the sequence; the next Create returns the id `n`,
overwrites the index entry at `n` with its own Item, and the sequence then
holds exactly two entries with ID `n`: the Item created last and the new
one. -/
theorem create_after_delete_reuses_live_id (ps : List Item) (p q : Item) (k : Int)
    (hv : ∀ x ∈ ps, validateItem x = []) (hp : validateItem p = [])
    (hq : validateItem q = []) (hk1 : 1 ≤ k) (hk2 : k < (ps.length : Int) + 1) :
    2 ≤ (ps ++ [p]).length ∧
    (deleteItem (afterCreates (ps ++ [p])) k).2 = .deleted ∧
    (deleteItem (afterCreates (ps ++ [p])) k).1.inventory.lookup ((ps.length : Int) + 1)
      = some { p with ID := (ps.length : Int) + 1 } ∧
    { p with ID := (ps.length : Int) + 1 }
      ∈ (deleteItem (afterCreates (ps ++ [p])) k).1.inventoryList ∧
    (postItem (deleteItem (afterCreates (ps ++ [p])) k).1 q).2
      = .created ((ps.length : Int) + 1) ∧
    (postItem (deleteItem (afterCreates (ps ++ [p])) k).1 q).1.inventory.lookup
        ((ps.length : Int) + 1)
      = some { q with ID := (ps.length : Int) + 1 } ∧
    (postItem (deleteItem (afterCreates (ps ++ [p])) k).1 q).1.inventoryList.filter
        (fun item => item.ID = (ps.length : Int) + 1)
      = [{ p with ID := (ps.length : Int) + 1 }, { q with ID := (ps.length : Int) + 1 }] := by
  obtain ⟨hd0, hlen0⟩ := dense_afterCreates ps hv
  have hreach : Reachable (afterCreates (ps ++ [p])) := ⟨_, rfl⟩
  obtain ⟨hm, hl, _⟩ := invariants_of_reachable _ hreach
  obtain ⟨hd1, _, hlen1⟩ := dense_postItem (afterCreates ps) p hp hd0
  have hs1 : afterCreates (ps ++ [p]) =
      { inventory := (afterCreates ps).inventory.insert ((ps.length : Int) + 1)
          { p with ID := (ps.length : Int) + 1 },
        inventoryList := (afterCreates ps).inventoryList ++
          [{ p with ID := (ps.length : Int) + 1 }] } := by
    rw [afterCreates_snoc, postItem_of_valid _ p hp, hd0.2.1, hlen0]
  rw [← afterCreates_snoc] at hd1 hlen1
  rw [hlen0] at hlen1
  have hkmem : k ∈ (afterCreates (ps ++ [p])).inventory :=
    dense_mem _ hd1 k hk1 (by rw [hlen1]; push_cast; omega)
  have hne : ((ps.length : Int) + 1) ≠ k := by omega
  refine ⟨by simp; omega, ?_⟩
  rcases deleteItem_cases (afterCreates (ps ++ [p])) k hm hl with
    ⟨_, _, h0 | hno⟩ | ⟨_, _, hpos, hposid, h⟩
  · omega
  · exact absurd hkmem hno
  · rw [h]
    have hpn : ({ p with ID := (ps.length : Int) + 1 } : Item)
        ∈ (afterCreates (ps ++ [p])).inventoryList := by
      rw [hs1]
      exact List.mem_append_right _ (List.mem_singleton_self _)
    have hpn2 : ({ p with ID := (ps.length : Int) + 1 } : Item)
        ∈ (afterCreates (ps ++ [p])).inventoryList.eraseIdx
            (itemPosition (afterCreates (ps ++ [p])).inventoryList k) := by
      apply mem_eraseIdx_of_ne _ _ hpos _ hpn
      intro he
      apply hne
      rw [← hposid, ← he]
    have hlk : ((afterCreates (ps ++ [p])).inventory.erase k).lookup ((ps.length : Int) + 1)
        = some { p with ID := (ps.length : Int) + 1 } := by
      rw [AList.lookup_erase_ne hne, hs1]
      exact AList.lookup_insert _
    have hsize : (((afterCreates (ps ++ [p])).inventory.erase k).entries.length : Int) + 1
        = (ps.length : Int) + 1 := by
      have := entries_length_erase_of_mem _ k hkmem
      rw [hd1.2.1, hlen1] at this
      omega
    have hnd : (((afterCreates (ps ++ [p])).inventoryList.eraseIdx
        (itemPosition (afterCreates (ps ++ [p])).inventoryList k)).map
          (fun x => x.ID)).Nodup := by
      apply List.Nodup.sublist ((List.eraseIdx_sublist _ _).map _)
      rw [hd1.1]
      exact idsUpTo_nodup _
    refine ⟨rfl, hlk, hpn2, ?_⟩
    rw [postItem_of_valid _ q hq]
    dsimp only
    rw [hsize]
    refine ⟨rfl, AList.lookup_insert _, ?_⟩
    rw [List.filter_append]
    have := filter_ID_eq_singleton _ hnd _ hpn2
    simp only at this
    rw [this]
    simp

/-- Witness of `create_after_delete_reuses_live_id`: Create, Create, Delete 1,
Create. -/
theorem create_after_delete_reuses_live_id_witness :
    (∀ x ∈ [widget], validateItem x = []) ∧ validateItem gadget = [] ∧
    validateItem gizmo = [] ∧ (1 : Int) ≤ 1 ∧ (1 : Int) < ([widget].length : Int) + 1 ∧
    (2 ≤ ([widget] ++ [gadget]).length ∧
    (deleteItem (afterCreates ([widget] ++ [gadget])) 1).2 = .deleted ∧
    (deleteItem (afterCreates ([widget] ++ [gadget])) 1).1.inventory.lookup
        (([widget].length : Int) + 1)
      = some { gadget with ID := ([widget].length : Int) + 1 } ∧
    { gadget with ID := ([widget].length : Int) + 1 }
      ∈ (deleteItem (afterCreates ([widget] ++ [gadget])) 1).1.inventoryList ∧
    (postItem (deleteItem (afterCreates ([widget] ++ [gadget])) 1).1 gizmo).2
      = .created (([widget].length : Int) + 1) ∧
    (postItem (deleteItem (afterCreates ([widget] ++ [gadget])) 1).1 gizmo).1.inventory.lookup
        (([widget].length : Int) + 1)
      = some { gizmo with ID := ([widget].length : Int) + 1 } ∧
    (postItem (deleteItem (afterCreates ([widget] ++ [gadget])) 1).1 gizmo).1.inventoryList.filter
        (fun item => item.ID = ([widget].length : Int) + 1)
      = [{ gadget with ID := ([widget].length : Int) + 1 },
          { gizmo with ID := ([widget].length : Int) + 1 }]) :=
  ⟨by decide, by decide, by decide, by decide, by decide,
    create_after_delete_reuses_live_id [widget] gadget gizmo 1
      (by decide) (by decide) (by decide) (by decide) (by decide)⟩

end Inventory
